import Mathlib

/-!
A verification development for the aardvark-dns configuration loader
(`src/config/mod.rs`).  The Rust functions `parse_config` and `parse_configs`
are shallowly embedded as executable Lean functions over explicit data:

* a descriptor directory is a list of enumeration results
  (`Option DirEntry`; `none` models an `Err` yielded by `read_dir`'s
  iterator, and a `DirEntry` whose `content` is `none` models a file whose
  `read_to_string` fails after enumeration);
* Rust `HashMap`s are modelled as insertion-ordered association lists,
  faithful because the source only ever reads and updates them through
  `get`/`entry().or_insert..`/`insert`; the one place the source *iterates*
  a `HashMap` (folding `container_ips` into the `ctrs` map) is modelled by
  an explicit key-iteration-order parameter, since Rust's `HashMap`
  iteration order is not a function of the map's contents;
* `str::parse::<IpvNAddr>` is modelled by executable parsers
  (`parseIpv4`, `parseIpv6`, `parseIp`) for the standard textual forms;
* `str::to_lowercase` is modelled on its ASCII fragment (`strToLower`),
  which agrees with Rust on all ASCII input and, like Rust's, never
  produces an ASCII uppercase letter.

The `metadata(dir)?.is_dir()` check and non-UTF-8 file names are
environmental and outside the model (Lean strings are always valid
Unicode).
-/

namespace Aardvark

/-- Lowercase an ASCII uppercase letter, leave every other character
unchanged.  Models the ASCII fragment of Rust's `char`-wise lowercasing. -/
def lowerChar (c : Char) : Char :=
  if 65 ≤ c.toNat ∧ c.toNat ≤ 90 then Char.ofNat (c.toNat + 32) else c

/-- Models `str::to_lowercase` (ASCII fragment). -/
def strToLower (s : String) : String :=
  String.mk (s.data.map lowerChar)

/-- Does the string contain an ASCII uppercase letter? -/
def containsUpper (s : String) : Bool :=
  s.data.any (fun c => 65 ≤ c.toNat && c.toNat ≤ 90)

/-- Split a list of characters at every occurrence of `sep`;
models Rust's `str::split(char)` (always yields at least one piece). -/
def splitCharAux (sep : Char) : List Char → List Char → List String
  | [], acc => [String.mk acc.reverse]
  | c :: cs, acc =>
    if c = sep then String.mk acc.reverse :: splitCharAux sep cs []
    else splitCharAux sep cs (c :: acc)

/-- Models Rust's `str::split(char)`. -/
def splitChar (sep : Char) (s : String) : List String :=
  splitCharAux sep s.data []

/-- `traverseOpt p l` parses every element of `l`, failing if any fails;
models `iter().map(parse).collect::<Result<Vec<_>,_>>()`. -/
def traverseOpt {α : Type} (p : String → Option α) : List String → Option (List α)
  | [] => some []
  | s :: rest =>
    match p s with
    | none => none
    | some a =>
      match traverseOpt p rest with
      | none => none
      | some l => some (a :: l)

/-- An IPv4 address: four octets. -/
structure Ipv4Addr where
  o0 : Nat
  o1 : Nat
  o2 : Nat
  o3 : Nat
deriving DecidableEq, Repr

/-- An IPv6 address: eight 16-bit segments. -/
structure Ipv6Addr where
  s0 : Nat
  s1 : Nat
  s2 : Nat
  s3 : Nat
  s4 : Nat
  s5 : Nat
  s6 : Nat
  s7 : Nat
deriving DecidableEq, Repr

/-- Models Rust's `std::net::IpAddr`. -/
inductive IpAddr where
  | v4 (a : Ipv4Addr)
  | v6 (a : Ipv6Addr)
deriving DecidableEq, Repr

/-- Decimal digit value of a character, if any. -/
def decDigit (c : Char) : Option Nat :=
  if 48 ≤ c.toNat ∧ c.toNat ≤ 57 then some (c.toNat - 48) else none

/-- Hexadecimal digit value of a character, if any. -/
def hexDigit (c : Char) : Option Nat :=
  if 48 ≤ c.toNat ∧ c.toNat ≤ 57 then some (c.toNat - 48)
  else if 97 ≤ c.toNat ∧ c.toNat ≤ 102 then some (c.toNat - 87)
  else if 65 ≤ c.toNat ∧ c.toNat ≤ 70 then some (c.toNat - 55)
  else none

/-- Is every character of the list a decimal digit? -/
def allDec (cs : List Char) : Bool :=
  cs.all (fun c => (decDigit c).isSome)

/-- Numeric value of a decimal digit string. -/
def decValue (cs : List Char) : Nat :=
  cs.foldl (fun a c => a * 10 + ((decDigit c).getD 0)) 0

/-- Parse one dotted-quad octet: nonempty, all decimal digits, no leading
zero (Rust rejects `01`), value at most 255. -/
def parseOctet (s : String) : Option Nat :=
  match s.data with
  | [] => none
  | c :: cs =>
    if (decDigit c).isSome ∧ allDec cs ∧ (cs = [] ∨ c ≠ '0') ∧
        decValue (c :: cs) ≤ 255 then
      some (decValue (c :: cs))
    else none

/-- Models `str::parse::<Ipv4Addr>`: four dot-separated decimal octets. -/
def parseIpv4 (s : String) : Option Ipv4Addr :=
  match splitChar '.' s with
  | [a, b, c, d] =>
    match parseOctet a, parseOctet b, parseOctet c, parseOctet d with
    | some x0, some x1, some x2, some x3 => some ⟨x0, x1, x2, x3⟩
    | _, _, _, _ => none
  | _ => none

/-- Is every character of the list a hexadecimal digit? -/
def allHex (cs : List Char) : Bool :=
  cs.all (fun c => (hexDigit c).isSome)

/-- Numeric value of a hexadecimal digit string. -/
def hexValue (cs : List Char) : Nat :=
  cs.foldl (fun a c => a * 16 + ((hexDigit c).getD 0)) 0

/-- Parse one IPv6 hexadecimal group: one to four hex digits. -/
def parseHexGroup (s : String) : Option Nat :=
  if s.data ≠ [] ∧ s.data.length ≤ 4 ∧ allHex s.data then
    some (hexValue s.data)
  else none

/-- Parse a colon-separated group list into 16-bit segments; the last
group may be an embedded dotted-quad IPv4 address (two segments). -/
def parseSegs : List String → Option (List Nat)
  | [] => some []
  | [s] =>
    match parseHexGroup s with
    | some g => some [g]
    | none =>
      match parseIpv4 s with
      | some a => some [a.o0 * 256 + a.o1, a.o2 * 256 + a.o3]
      | none => none
  | s :: rest =>
    match parseHexGroup s with
    | none => none
    | some g =>
      match parseSegs rest with
      | none => none
      | some l => some (g :: l)

/-- Turn exactly eight segments into an `Ipv6Addr`. -/
def segsToV6 (l : List Nat) : Option Ipv6Addr :=
  match l with
  | [a, b, c, d, e, f, g, h] => some ⟨a, b, c, d, e, f, g, h⟩
  | _ => none

/-- Split a character list at the first occurrence of `::`, if any. -/
def splitDoubleColon : List Char → Option (List Char × List Char)
  | [] => none
  | ':' :: ':' :: rest => some ([], rest)
  | c :: rest =>
    match splitDoubleColon rest with
    | none => none
    | some (l, r) => some (c :: l, r)

/-- Models `str::parse::<Ipv6Addr>`: eight groups, or a single `::`
standing for one or more zero groups, with an optional embedded
trailing IPv4 address.  (A second `::` always leaves an empty group in
the right-hand part, which is rejected, as in Rust.) -/
def parseIpv6 (s : String) : Option Ipv6Addr :=
  match splitDoubleColon s.data with
  | none =>
    match parseSegs (splitChar ':' s) with
    | some segs => segsToV6 segs
    | none => none
  | some (l, r) =>
    let lparts := if l = [] then [] else splitCharAux ':' l []
    let rparts := if r = [] then [] else splitCharAux ':' r []
    match traverseOpt parseHexGroup lparts with
    | none => none
    | some lsegs =>
      match parseSegs rparts with
      | none => none
      | some rsegs =>
        if lsegs.length + rsegs.length ≤ 7 then
          segsToV6 (lsegs ++ List.replicate (8 - lsegs.length - rsegs.length) 0 ++ rsegs)
        else none

/-- Models `str::parse::<IpAddr>`: IPv4 first, then IPv6. -/
def parseIp (s : String) : Option IpAddr :=
  match parseIpv4 s with
  | some a => some (IpAddr.v4 a)
  | none =>
    match parseIpv6 s with
    | some a => some (IpAddr.v6 a)
    | none => none

/-! ### Insertion-ordered association lists, modelling Rust `HashMap` -/

/-- An insertion-ordered association list. -/
abbrev AList (K V : Type) : Type := List (K × V)

/-- The empty map. -/
def AList.empty {K V : Type} : AList K V := []

/-- Models `HashMap::get`. -/
def alookup {K V : Type} [DecidableEq K] : AList K V → K → Option V
  | [], _ => none
  | (k', v) :: rest, k => if k' = k then some v else alookup rest k

/-- Models `map.entry(k).or_insert_with(|| d)` followed by an in-place
update of the value with `f`. -/
def aupd {K V : Type} [DecidableEq K] : AList K V → K → V → (V → V) → AList K V
  | [], k, d, f => [(k, f d)]
  | (k', v) :: rest, k, d, f =>
    if k' = k then (k', f v) :: rest else (k', v) :: aupd rest k d f

/-- Models `HashMap::insert` (replace the value if the key exists). -/
def ainsert {K V : Type} [DecidableEq K] (m : AList K V) (k : K) (v : V) : AList K V :=
  aupd m k v (fun _ => v)

/-- The keys, in insertion order. -/
def keysOf {K V : Type} (m : AList K V) : List K := m.map (fun p => p.1)

/-- Lookup through two map levels. -/
def alookup2 {K1 K2 V : Type} [DecidableEq K1] [DecidableEq K2]
    (m : AList K1 (AList K2 V)) (k1 : K1) (k2 : K2) : Option V :=
  match alookup m k1 with
  | none => none
  | some inner => alookup inner k2

/-! ### `parse_config`: one descriptor file -/

/-- One parsed container line; mirrors `struct CtrEntry` in
`src/config/mod.rs`. -/
structure CtrEntry where
  id : String
  v4 : Option (List Ipv4Addr)
  v6 : Option (List Ipv6Addr)
  aliases : List String
  dns_servers : Option (List IpAddr)
deriving DecidableEq, Repr

/-- The container's addresses in the order `new_ctr_ips` is built by
`parse_configs`: all v4 addresses, then all v6 addresses, each in
descriptor order. -/
def CtrEntry.ips (e : CtrEntry) : List IpAddr :=
  (e.v4.getD []).map IpAddr.v4 ++ (e.v6.getD []).map IpAddr.v6

/-- Parse a comma-separated list field that is optional: an empty field
is `none`, a nonempty field must parse in full.  Mirrors the
`if !parts[i].is_empty() { ...collect()?... } else { None }` blocks. -/
def parseOptList {α : Type} (p : String → Option α) (field : String) :
    Except String (Option (List α)) :=
  if field = "" then .ok none
  else
    match traverseOpt p (splitChar ',' field) with
    | none => .error "error parsing IP address"
    | some l => .ok (some l)

/-- Parse one container line, already split on spaces; mirrors the loop
body of `parse_config` (`src/config/mod.rs` lines 226-305). -/
def parseCtrParts (parts : List String) : Except String CtrEntry :=
  if parts.length < 4 then
    .error "improperly formatted - too few entries"
  else
    match parseOptList parseIpv4 (parts.getD 1 "") with
    | .error e => .error e
    | .ok v4_addrs =>
      match parseOptList parseIpv6 (parts.getD 2 "") with
      | .error e => .error e
      | .ok v6_addrs =>
        if ((splitChar ',' (parts.getD 3 "")).map strToLower).isEmpty then
          .error "improperly formatted - no names given"
        else
          match
            (if parts.length = 5 then parseOptList parseIp (parts.getD 4 "")
             else .ok none) with
          | .error e => .error e
          | .ok dns_servers =>
            .ok ⟨strToLower (parts.getD 0 ""), v4_addrs, v6_addrs,
                 (splitChar ',' (parts.getD 3 "")).map strToLower,
                 dns_servers⟩

/-- The line loop of `parse_config`: `isFirst` tracks whether the next
non-empty line is the bind-address line; empty lines are skipped; the
final `bind_addrs.is_empty()` check is performed once all lines are
consumed. -/
def parseLines (isFirst : Bool) (binds : List IpAddr) (ctrs : List CtrEntry) :
    List String → Except String (List IpAddr × List CtrEntry)
  | [] =>
    if binds.isEmpty then .error "does not provide any bind addresses"
    else .ok (binds, ctrs)
  | l :: rest =>
    if l = "" then parseLines isFirst binds ctrs rest
    else if isFirst then
      match traverseOpt parseIp (splitChar ',' l) with
      | none => .error "error parsing ip address"
      | some bs => parseLines false (binds ++ bs) ctrs rest
    else
      match parseCtrParts (splitChar ' ' l) with
      | .error e => .error e
      | .ok entry => parseLines isFirst binds (ctrs ++ [entry]) rest

/-- Models `parse_config` applied to a file with the given contents
(`read_to_string` already done). -/
def parse_config (content : String) : Except String (List IpAddr × List CtrEntry) :=
  parseLines true [] [] (splitChar '\n' content)

/-! ### `parse_configs`: the whole descriptor directory -/

/-- Modelled from the spec: the reserved pid-file base name that the
loader skips (`src/config/constants.rs` is not among the sources; §6 of
the spec fixes the name `aardvark.pid`). -/
def AARDVARK_PID_FILE : String := "aardvark.pid"

/-- One `Ok` result of directory enumeration: the file's base name and
its contents; `content = none` models a file that can no longer be read
when `parse_config` calls `read_to_string` on it. -/
structure DirEntry where
  name : String
  content : Option String
deriving DecidableEq, Repr

/-- The mutable maps `parse_configs` builds up while walking the
directory (`src/config/mod.rs` lines 39-45). -/
structure LoadState where
  network_membership : AList String (List String)
  container_ips : AList String (List IpAddr)
  reverse : AList String (AList IpAddr (List String))
  network_names : AList String (AList String (List IpAddr))
  listen4 : AList String (List Ipv4Addr)
  listen6 : AList String (List Ipv6Addr)
  ctr_dns_server : AList IpAddr (Option (List IpAddr))
deriving DecidableEq, Repr

/-- The empty initial state. -/
def initState : LoadState := ⟨[], [], [], [], [], [], []⟩

/-- Record one bind address in the per-network listen maps
(lines 85-96). -/
def addBind (networkName : String) (st : LoadState) (ip : IpAddr) : LoadState :=
  match ip with
  | .v4 a => { st with listen4 := aupd st.listen4 networkName [] (fun l => l ++ [a]) }
  | .v6 b => { st with listen6 := aupd st.listen6 networkName [] (fun l => l ++ [b]) }

/-- Per-address bookkeeping inside the container loop: append the
aliases to the reverse map for this network and address, and record the
container's upstream DNS servers (lines 110-134). -/
def addRevIp (networkName : String) (aliases : List String)
    (dns : Option (List IpAddr)) (st : LoadState) (ip : IpAddr) : LoadState :=
  { st with
    reverse := aupd st.reverse networkName []
      (fun m => aupd m ip [] (fun l => l ++ aliases)),
    ctr_dns_server := ainsert st.ctr_dns_server ip dns }

/-- Process one container entry of one file (lines 98-149).  The v4 and
v6 loops are folded over `e.ips`, which is exactly the `new_ctr_ips`
vector the source builds (v4 first, then v6). -/
def processCtrEntry (st : LoadState) (networkName : String) (e : CtrEntry) : LoadState :=
  let st1 :=
    { st with
      network_membership := aupd st.network_membership e.id []
        (fun l => if networkName ∈ l then l else l ++ [networkName]) }
  let st2 := e.ips.foldl (addRevIp networkName e.aliases e.dns_servers) st1
  let st3 :=
    { st2 with
      container_ips := aupd st2.container_ips e.id [] (fun l => l ++ e.ips) }
  { st3 with
    network_names := aupd st3.network_names networkName []
      (fun m => e.aliases.foldl (fun m' a => aupd m' a [] (fun l => l ++ e.ips)) m) }

/-- Process one successfully parsed descriptor file (lines 85-149). -/
def processFile (st : LoadState) (networkName : String) (binds : List IpAddr)
    (ctrs : List CtrEntry) : LoadState :=
  let st1 := binds.foldl (addBind networkName) st
  ctrs.foldl (fun s e => processCtrEntry s networkName e) st1

/-- The directory walk of `parse_configs` (lines 50-153): an `Err`
enumeration result is warned about and skipped; the reserved pid file is
skipped; an unreadable file or a parse failure aborts with the error. -/
def loadEntries (st : LoadState) : List (Option DirEntry) → Except String LoadState
  | [] => .ok st
  | none :: rest => loadEntries st rest
  | some de :: rest =>
    if de.name = AARDVARK_PID_FILE then loadEntries st rest
    else
      match de.content with
      | none => .error "config file could not be read"
      | some c =>
        match parse_config c with
        | .error e => .error e
        | .ok (binds, ctrs) => loadEntries (processFile st de.name binds ctrs) rest

/-- The final fold of `parse_configs` (lines 156-176): walk the
`container_ips` map in the iteration order given by `order` and append
each container's network-membership list under each of its IPs.  Rust's
`HashMap` iteration order is not a function of the map's contents, so it
is an explicit parameter here; a faithful run instantiates it with some
permutation of the map's keys. -/
def buildCtrs (st : LoadState) : List String → AList IpAddr (List String) →
    Except String (AList IpAddr (List String))
  | [], ctrs => .ok ctrs
  | id :: rest, ctrs =>
    match alookup st.container_ips id with
    | none => buildCtrs st rest ctrs
    | some ips =>
      match alookup st.network_membership id with
      | none => .error "has an entry in IPs table, but not network membership table"
      | some s =>
        buildCtrs st rest (ips.foldl (fun m ip => aupd m ip [] (fun l => l ++ s)) ctrs)

/-- Modelled from the spec: the `Backend` assembles the four indices
computed by the loader (`src/backend.rs` is not among the sources; §3 of
the spec lists exactly these four maps, "all computed once by the
loader", and the unit tests in `src/test/test.rs` read them back as
plain fields). -/
structure DNSBackend where
  ip_mappings : AList IpAddr (List String)
  name_mappings : AList String (AList String (List IpAddr))
  reverse_mappings : AList String (AList IpAddr (List String))
  ctr_dns_server : AList IpAddr (Option (List IpAddr))
deriving DecidableEq, Repr

/-- Modelled from the spec: `DNSBackend::new` stores the four indices
unchanged. -/
def DNSBackend.new (ctrs : AList IpAddr (List String))
    (network_names : AList String (AList String (List IpAddr)))
    (reverse : AList String (AList IpAddr (List String)))
    (ctr_dns_server : AList IpAddr (Option (List IpAddr))) : DNSBackend :=
  ⟨ctrs, network_names, reverse, ctr_dns_server⟩

/-- `parse_configs` with an explicit iteration order for the final
`container_ips` fold. -/
def parse_configs_order (entries : List (Option DirEntry)) (order : List String) :
    Except String (DNSBackend × AList String (List Ipv4Addr) × AList String (List Ipv6Addr)) :=
  match loadEntries initState entries with
  | .error e => .error e
  | .ok st =>
    match buildCtrs st order [] with
    | .error e => .error e
    | .ok ctrs =>
      .ok (DNSBackend.new ctrs st.network_names st.reverse st.ctr_dns_server,
           st.listen4, st.listen6)

/-- The key set of `container_ips` after a successful walk, in insertion
order; used as the canonical iteration order. -/
def canonicalKeys (entries : List (Option DirEntry)) : List String :=
  match loadEntries initState entries with
  | .error _ => []
  | .ok st => keysOf st.container_ips

/-- Models `parse_configs` (with insertion order standing in for the
`HashMap` iteration order of the final fold). -/
def parse_configs (entries : List (Option DirEntry)) :
    Except String (DNSBackend × AList String (List Ipv4Addr) × AList String (List Ipv6Addr)) :=
  parse_configs_order entries (canonicalKeys entries)

/-! ### Result extractors (glue for stating theorems) -/

/-- Is an `Except` an `ok`? -/
def isOkE {ε α : Type} : Except ε α → Bool
  | .ok _ => true
  | .error _ => false

/-- Is an `Except` an `error`? -/
def isErrE {ε α : Type} : Except ε α → Bool
  | .ok _ => false
  | .error _ => true

/-- The backend with all indices empty. -/
def emptyBackend : DNSBackend := ⟨[], [], [], []⟩

/-- The state after a successful directory walk (the empty state if the
walk failed). -/
def loadedState (entries : List (Option DirEntry)) : LoadState :=
  match loadEntries initState entries with
  | .error _ => initState
  | .ok st => st

/-- The backend produced by a successful `parse_configs` (the empty
backend on failure). -/
def loadedBackend (entries : List (Option DirEntry)) : DNSBackend :=
  match parse_configs entries with
  | .error _ => emptyBackend
  | .ok (b, _, _) => b

/-- The backend produced with an explicit iteration order. -/
def orderedBackend (entries : List (Option DirEntry)) (order : List String) : DNSBackend :=
  match parse_configs_order entries order with
  | .error _ => emptyBackend
  | .ok (b, _, _) => b

/-- The container entries of one descriptor file (empty on parse
failure). -/
def ctrsOf (content : String) : List CtrEntry :=
  match parse_config content with
  | .error _ => []
  | .ok (_, cs) => cs

/-! ### Association-list lemmas -/

theorem alookup_aupd_self {K V : Type} [DecidableEq K]
    (m : AList K V) (k : K) (d : V) (f : V → V) :
    alookup (aupd m k d f) k = some (f ((alookup m k).getD d)) := by
  induction m with
  | nil => simp [alookup, aupd]
  | cons p rest ih =>
    obtain ⟨k', v⟩ := p
    by_cases h : k' = k
    · subst h
      simp [alookup, aupd]
    · simp [alookup, aupd, h, ih]

theorem alookup_aupd_ne {K V : Type} [DecidableEq K]
    (m : AList K V) (k k' : K) (d : V) (f : V → V) (h : k' ≠ k) :
    alookup (aupd m k d f) k' = alookup m k' := by
  induction m with
  | nil => simp [alookup, aupd, Ne.symm h]
  | cons p rest ih =>
    obtain ⟨k2, v⟩ := p
    by_cases h2 : k2 = k
    · subst h2
      simp [alookup, aupd, Ne.symm h]
    · simp [alookup, aupd, h2, ih]

theorem alookup_aupd_isSome {K V : Type} [DecidableEq K]
    (m : AList K V) (k k' : K) (d : V) (f : V → V) :
    (alookup (aupd m k d f) k').isSome = true ↔
      (k' = k ∨ (alookup m k').isSome = true) := by
  by_cases h : k' = k
  · subst h
    simp [alookup_aupd_self]
  · simp [alookup_aupd_ne m k k' d f h, h]

theorem alookup_ainsert_self {K V : Type} [DecidableEq K]
    (m : AList K V) (k : K) (v : V) :
    alookup (ainsert m k v) k = some v := by
  simp [ainsert, alookup_aupd_self]

theorem alookup_ainsert_ne {K V : Type} [DecidableEq K]
    (m : AList K V) (k k' : K) (v : V) (h : k' ≠ k) :
    alookup (ainsert m k v) k' = alookup m k' :=
  alookup_aupd_ne m k k' v _ h

theorem alookup_isSome_of_mem_keys {K V : Type} [DecidableEq K]
    (m : AList K V) (k : K) (h : k ∈ keysOf m) :
    (alookup m k).isSome = true := by
  induction m with
  | nil => simp [keysOf] at h
  | cons p rest ih =>
    obtain ⟨k', v⟩ := p
    by_cases h2 : k' = k
    · simp [alookup, h2]
    · simp [keysOf] at h
      rcases h with h | h

      · exact absurd h.symm h2
      · simp [alookup, h2]
        exact ih (by simpa [keysOf] using h)

/-! ### Growth: the loader only ever appends to value lists -/

/-- `Grow1 m m'`: every value list present in `m` is still present in
`m'`, extended only on the right. -/
def Grow1 {K α : Type} [DecidableEq K] (m m' : AList K (List α)) : Prop :=
  ∀ k l, alookup m k = some l → ∃ l', alookup m' k = some l' ∧ l <+: l'

theorem grow1_refl {K α : Type} [DecidableEq K] (m : AList K (List α)) :
    Grow1 m m := fun k l h => ⟨l, h, List.prefix_refl l⟩

theorem grow1_trans {K α : Type} [DecidableEq K]
    {m1 m2 m3 : AList K (List α)} (h1 : Grow1 m1 m2) (h2 : Grow1 m2 m3) :
    Grow1 m1 m3 := by
  intro k l h
  obtain ⟨l2, hl2, hp2⟩ := h1 k l h
  obtain ⟨l3, hl3, hp3⟩ := h2 k l2 hl2
  exact ⟨l3, hl3, hp2.trans hp3⟩

theorem grow1_aupd {K α : Type} [DecidableEq K]
    (m : AList K (List α)) (k : K) (d : List α) (f : List α → List α)
    (hf : ∀ l, l <+: f l) : Grow1 m (aupd m k d f) := by
  intro k' l h
  by_cases hk : k' = k
  · subst hk
    refine ⟨f l, ?_, hf l⟩
    rw [alookup_aupd_self, h]
    rfl
  · exact ⟨l, by rw [alookup_aupd_ne m k k' d f hk]; exact h, List.prefix_refl l⟩

theorem grow1_foldl {K α β : Type} [DecidableEq K]
    (step : AList K (List α) → β → AList K (List α))
    (hstep : ∀ m x, Grow1 m (step m x)) :
    ∀ (xs : List β) (m : AList K (List α)), Grow1 m (xs.foldl step m) := by
  intro xs
  induction xs with
  | nil => intro m; exact grow1_refl m
  | cons x rest ih =>
    intro m
    exact grow1_trans (hstep m x) (ih (step m x))

/-- `Grow2`: the nested-map version of `Grow1`. -/
def Grow2 {K1 K2 α : Type} [DecidableEq K1] [DecidableEq K2]
    (m m' : AList K1 (AList K2 (List α))) : Prop :=
  ∀ k1 k2 l, alookup2 m k1 k2 = some l →
    ∃ l', alookup2 m' k1 k2 = some l' ∧ l <+: l'

theorem grow2_refl {K1 K2 α : Type} [DecidableEq K1] [DecidableEq K2]
    (m : AList K1 (AList K2 (List α))) : Grow2 m m :=
  fun _ _ l h => ⟨l, h, List.prefix_refl l⟩

theorem grow2_trans {K1 K2 α : Type} [DecidableEq K1] [DecidableEq K2]
    {m1 m2 m3 : AList K1 (AList K2 (List α))}
    (h1 : Grow2 m1 m2) (h2 : Grow2 m2 m3) : Grow2 m1 m3 := by
  intro k1 k2 l h
  obtain ⟨l2, hl2, hp2⟩ := h1 k1 k2 l h
  obtain ⟨l3, hl3, hp3⟩ := h2 k1 k2 l2 hl2
  exact ⟨l3, hl3, hp2.trans hp3⟩

theorem grow2_aupd {K1 K2 α : Type} [DecidableEq K1] [DecidableEq K2]
    (m : AList K1 (AList K2 (List α))) (k : K1) (d : AList K2 (List α))
    (f : AList K2 (List α) → AList K2 (List α))
    (hf : ∀ inner, Grow1 inner (f inner)) : Grow2 m (aupd m k d f) := by
  intro k1 k2 l h
  by_cases hk : k1 = k
  · subst hk
    unfold alookup2 at h ⊢
    rw [alookup_aupd_self]
    match hm : alookup m k1 with
    | none => rw [hm] at h; exact absurd h (by simp)
    | some inner =>
      rw [hm] at h
      obtain ⟨l', hl', hp⟩ := hf ((some inner).getD d) k2 l (by simpa using h)
      exact ⟨l', by simpa using hl', hp⟩
  · unfold alookup2 at h ⊢
    rw [alookup_aupd_ne m k k1 d f hk]
    exact ⟨l, h, List.prefix_refl l⟩

/-! ### Which step touches which field -/

theorem addRevIp_network_names (n : String) (al : List String)
    (dns : Option (List IpAddr)) (st : LoadState) (ip : IpAddr) :
    (addRevIp n al dns st ip).network_names = st.network_names := rfl

theorem addRevIp_network_membership (n : String) (al : List String)
    (dns : Option (List IpAddr)) (st : LoadState) (ip : IpAddr) :
    (addRevIp n al dns st ip).network_membership = st.network_membership := rfl

theorem addRevIp_container_ips (n : String) (al : List String)
    (dns : Option (List IpAddr)) (st : LoadState) (ip : IpAddr) :
    (addRevIp n al dns st ip).container_ips = st.container_ips := rfl

theorem revFold_network_names (n : String) (al : List String)
    (dns : Option (List IpAddr)) (ips : List IpAddr) (st : LoadState) :
    (ips.foldl (addRevIp n al dns) st).network_names = st.network_names := by
  induction ips generalizing st with
  | nil => rfl
  | cons ip rest ih => simp [List.foldl, ih, addRevIp_network_names]

theorem revFold_network_membership (n : String) (al : List String)
    (dns : Option (List IpAddr)) (ips : List IpAddr) (st : LoadState) :
    (ips.foldl (addRevIp n al dns) st).network_membership = st.network_membership := by
  induction ips generalizing st with
  | nil => rfl
  | cons ip rest ih => simp [List.foldl, ih, addRevIp_network_membership]

theorem revFold_container_ips (n : String) (al : List String)
    (dns : Option (List IpAddr)) (ips : List IpAddr) (st : LoadState) :
    (ips.foldl (addRevIp n al dns) st).container_ips = st.container_ips := by
  induction ips generalizing st with
  | nil => rfl
  | cons ip rest ih => simp [List.foldl, ih, addRevIp_container_ips]

theorem addBind_network_names (n : String) (st : LoadState) (ip : IpAddr) :
    (addBind n st ip).network_names = st.network_names := by
  cases ip <;> rfl

theorem addBind_network_membership (n : String) (st : LoadState) (ip : IpAddr) :
    (addBind n st ip).network_membership = st.network_membership := by
  cases ip <;> rfl

theorem addBind_container_ips (n : String) (st : LoadState) (ip : IpAddr) :
    (addBind n st ip).container_ips = st.container_ips := by
  cases ip <;> rfl

theorem addBind_reverse (n : String) (st : LoadState) (ip : IpAddr) :
    (addBind n st ip).reverse = st.reverse := by
  cases ip <;> rfl

theorem bindFold_network_names (n : String) (binds : List IpAddr) (st : LoadState) :
    (binds.foldl (addBind n) st).network_names = st.network_names := by
  induction binds generalizing st with
  | nil => rfl
  | cons ip rest ih => simp [List.foldl, ih, addBind_network_names]

theorem bindFold_network_membership (n : String) (binds : List IpAddr) (st : LoadState) :
    (binds.foldl (addBind n) st).network_membership = st.network_membership := by
  induction binds generalizing st with
  | nil => rfl
  | cons ip rest ih => simp [List.foldl, ih, addBind_network_membership]

theorem bindFold_container_ips (n : String) (binds : List IpAddr) (st : LoadState) :
    (binds.foldl (addBind n) st).container_ips = st.container_ips := by
  induction binds generalizing st with
  | nil => rfl
  | cons ip rest ih => simp [List.foldl, ih, addBind_container_ips]

theorem bindFold_reverse (n : String) (binds : List IpAddr) (st : LoadState) :
    (binds.foldl (addBind n) st).reverse = st.reverse := by
  induction binds generalizing st with
  | nil => rfl
  | cons ip rest ih => simp [List.foldl, ih, addBind_reverse]

/-- The inner fold that appends a container's addresses under each of
its aliases (`for alias in entry.aliases { ... }`). -/
def aliasFold (aliases : List String) (ips : List IpAddr)
    (m : AList String (List IpAddr)) : AList String (List IpAddr) :=
  aliases.foldl (fun m' a => aupd m' a [] (fun l => l ++ ips)) m

theorem processCtrEntry_network_names (st : LoadState) (n : String) (e : CtrEntry) :
    (processCtrEntry st n e).network_names =
      aupd st.network_names n [] (aliasFold e.aliases e.ips) := by
  unfold processCtrEntry aliasFold
  simp [revFold_network_names]

theorem processCtrEntry_reverse (st : LoadState) (n : String) (e : CtrEntry) :
    (processCtrEntry st n e).reverse =
      (e.ips.foldl (addRevIp n e.aliases e.dns_servers)
        { st with
          network_membership := aupd st.network_membership e.id []
            (fun l => if n ∈ l then l else l ++ [n]) }).reverse := by
  unfold processCtrEntry
  rfl

theorem processCtrEntry_network_membership (st : LoadState) (n : String) (e : CtrEntry) :
    (processCtrEntry st n e).network_membership =
      aupd st.network_membership e.id [] (fun l => if n ∈ l then l else l ++ [n]) := by
  unfold processCtrEntry
  simp [revFold_network_membership]

theorem processCtrEntry_container_ips (st : LoadState) (n : String) (e : CtrEntry) :
    (processCtrEntry st n e).container_ips =
      aupd st.container_ips e.id [] (fun l => l ++ e.ips) := by
  unfold processCtrEntry
  simp [revFold_container_ips]

/-! ### The alias fold: growth, establishment, provenance -/

theorem aliasFold_grow (aliases : List String) (ips : List IpAddr)
    (m : AList String (List IpAddr)) : Grow1 m (aliasFold aliases ips m) :=
  grow1_foldl _ (fun m' a => grow1_aupd m' a [] _ (fun l => List.prefix_append l ips))
    aliases m

theorem aliasFold_establish (aliases : List String) (ips : List IpAddr)
    (m : AList String (List IpAddr)) (x : String) (hx : x ∈ aliases) :
    ∃ l, alookup (aliasFold aliases ips m) x = some l ∧ ips <:+: l := by
  induction aliases generalizing m with
  | nil => cases hx
  | cons a rest ih =>
    rcases List.mem_cons.mp hx with h | h
    · subst h
      have h1 : alookup (aupd m x [] (fun l => l ++ ips)) x =
          some ((alookup m x).getD [] ++ ips) := alookup_aupd_self m x [] _
      obtain ⟨l', hl', hp⟩ :=
        aliasFold_grow rest ips (aupd m x [] (fun l => l ++ ips)) x _ h1
      exact ⟨l', hl', ((List.suffix_append _ ips).isInfix).trans hp.isInfix⟩
    · exact ih _ h

theorem aliasFold_prov (aliases : List String) (ips : List IpAddr)
    (m : AList String (List IpAddr)) (x : String)
    (h : (alookup (aliasFold aliases ips m) x).isSome = true) :
    x ∈ aliases ∨ (alookup m x).isSome = true := by
  induction aliases generalizing m with
  | nil => exact Or.inr h
  | cons a rest ih =>
    rcases ih _ h with h1 | h1
    · exact Or.inl (List.mem_cons_of_mem a h1)
    · rcases (alookup_aupd_isSome m a x [] _).mp h1 with h2 | h2
      · exact Or.inl (h2 ▸ List.mem_cons_self a rest)
      · exact Or.inr h2

/-! ### The reverse map: growth and establishment through the ip fold -/

theorem addRevIp_grow_reverse (n : String) (al : List String)
    (dns : Option (List IpAddr)) (st : LoadState) (ip : IpAddr) :
    Grow2 st.reverse (addRevIp n al dns st ip).reverse := by
  unfold addRevIp
  exact grow2_aupd st.reverse n [] _
    (fun inner => grow1_aupd inner ip [] _ (fun l => List.prefix_append l al))

theorem revFold_grow_reverse (n : String) (al : List String)
    (dns : Option (List IpAddr)) (ips : List IpAddr) (st : LoadState) :
    Grow2 st.reverse ((ips.foldl (addRevIp n al dns) st).reverse) := by
  induction ips generalizing st with
  | nil => exact grow2_refl _
  | cons ip rest ih =>
    exact grow2_trans (addRevIp_grow_reverse n al dns st ip) (ih _)

theorem revFold_establish (n : String) (al : List String)
    (dns : Option (List IpAddr)) (ips : List IpAddr) (st : LoadState)
    (a : IpAddr) (ha : a ∈ ips) :
    ∃ l, alookup2 ((ips.foldl (addRevIp n al dns) st).reverse) n a = some l ∧
      al <:+: l := by
  induction ips generalizing st with
  | nil => cases ha
  | cons ip rest ih =>
    rcases List.mem_cons.mp ha with h | h
    · subst h
      have h1 : alookup2 (addRevIp n al dns st a).reverse n a =
          some ((alookup2 st.reverse n a).getD [] ++ al) := by
        unfold addRevIp alookup2
        rw [alookup_aupd_self]
        cases hm : alookup st.reverse n <;>
          simp [hm, alookup_aupd_self, alookup, aupd]
      obtain ⟨l', hl', hp⟩ :=
        revFold_grow_reverse n al dns rest (addRevIp n al dns st a) n a _ h1
      exact ⟨l', hl', ((List.suffix_append _ al).isInfix).trans hp.isInfix⟩
    · exact ih _ h

/-! ### `processCtrEntry`: growth, establishment, provenance -/

theorem processCtrEntry_grow_nm (st : LoadState) (n : String) (e : CtrEntry) :
    Grow2 st.network_names (processCtrEntry st n e).network_names := by
  rw [processCtrEntry_network_names]
  exact grow2_aupd _ n [] _ (fun inner => aliasFold_grow e.aliases e.ips inner)

theorem processCtrEntry_grow_rev (st : LoadState) (n : String) (e : CtrEntry) :
    Grow2 st.reverse (processCtrEntry st n e).reverse := by
  rw [processCtrEntry_reverse]
  exact revFold_grow_reverse n e.aliases e.dns_servers e.ips
    { st with
      network_membership := aupd st.network_membership e.id []
        (fun l => if n ∈ l then l else l ++ [n]) }

theorem processCtrEntry_establish_nm (st : LoadState) (n : String) (e : CtrEntry)
    (x : String) (hx : x ∈ e.aliases) :
    ∃ l, alookup2 (processCtrEntry st n e).network_names n x = some l ∧
      e.ips <:+: l := by
  rw [processCtrEntry_network_names]
  unfold alookup2
  rw [alookup_aupd_self]
  obtain ⟨l, hl, hp⟩ :=
    aliasFold_establish e.aliases e.ips ((alookup st.network_names n).getD []) x hx
  exact ⟨l, by simpa using hl, hp⟩

theorem processCtrEntry_establish_rev (st : LoadState) (n : String) (e : CtrEntry)
    (a : IpAddr) (ha : a ∈ e.ips) :
    ∃ l, alookup2 (processCtrEntry st n e).reverse n a = some l ∧
      e.aliases <:+: l := by
  rw [processCtrEntry_reverse]
  exact revFold_establish n e.aliases e.dns_servers e.ips
    { st with
      network_membership := aupd st.network_membership e.id []
        (fun l => if n ∈ l then l else l ++ [n]) } a ha

theorem processCtrEntry_prov_nm (st : LoadState) (n n' : String) (e : CtrEntry)
    (x : String)
    (h : (alookup2 (processCtrEntry st n e).network_names n' x).isSome = true) :
    (alookup2 st.network_names n' x).isSome = true ∨ (n' = n ∧ x ∈ e.aliases) := by
  rw [processCtrEntry_network_names] at h
  by_cases hn : n' = n
  · subst hn
    unfold alookup2 at h
    rw [alookup_aupd_self] at h
    simp only [Option.getD] at h
    rcases aliasFold_prov e.aliases e.ips _ x (by simpa using h) with h1 | h1
    · exact Or.inr ⟨rfl, h1⟩
    · left
      unfold alookup2
      match hm : alookup st.network_names n' with
      | none => rw [hm] at h1; simp [alookup] at h1
      | some inner => rw [hm] at h1; simpa using h1
  · left
    unfold alookup2 at h ⊢
    rwa [alookup_aupd_ne _ n n' [] _ hn] at h

/-! ### `processFile`: growth, establishment, provenance -/

theorem ctrsFold_grow_nm (n : String) (ctrs : List CtrEntry) (st : LoadState) :
    Grow2 st.network_names
      ((ctrs.foldl (fun s e => processCtrEntry s n e) st).network_names) := by
  induction ctrs generalizing st with
  | nil => exact grow2_refl _
  | cons e rest ih => exact grow2_trans (processCtrEntry_grow_nm st n e) (ih _)

theorem ctrsFold_grow_rev (n : String) (ctrs : List CtrEntry) (st : LoadState) :
    Grow2 st.reverse
      ((ctrs.foldl (fun s e => processCtrEntry s n e) st).reverse) := by
  induction ctrs generalizing st with
  | nil => exact grow2_refl _
  | cons e rest ih => exact grow2_trans (processCtrEntry_grow_rev st n e) (ih _)

theorem ctrsFold_establish_nm (n : String) (ctrs : List CtrEntry) (st : LoadState)
    (e : CtrEntry) (he : e ∈ ctrs) (x : String) (hx : x ∈ e.aliases) :
    ∃ l, alookup2 ((ctrs.foldl (fun s e' => processCtrEntry s n e') st).network_names)
      n x = some l ∧ e.ips <:+: l := by
  induction ctrs generalizing st with
  | nil => cases he
  | cons e0 rest ih =>
    rcases List.mem_cons.mp he with h | h
    · subst h
      obtain ⟨l, hl, hp⟩ := processCtrEntry_establish_nm st n e x hx
      obtain ⟨l', hl', hp'⟩ := ctrsFold_grow_nm n rest (processCtrEntry st n e) n x l hl
      exact ⟨l', hl', hp.trans hp'.isInfix⟩
    · exact ih _ h

theorem ctrsFold_establish_rev (n : String) (ctrs : List CtrEntry) (st : LoadState)
    (e : CtrEntry) (he : e ∈ ctrs) (a : IpAddr) (ha : a ∈ e.ips) :
    ∃ l, alookup2 ((ctrs.foldl (fun s e' => processCtrEntry s n e') st).reverse)
      n a = some l ∧ e.aliases <:+: l := by
  induction ctrs generalizing st with
  | nil => cases he
  | cons e0 rest ih =>
    rcases List.mem_cons.mp he with h | h
    · subst h
      obtain ⟨l, hl, hp⟩ := processCtrEntry_establish_rev st n e a ha
      obtain ⟨l', hl', hp'⟩ := ctrsFold_grow_rev n rest (processCtrEntry st n e) n a l hl
      exact ⟨l', hl', hp.trans hp'.isInfix⟩
    · exact ih _ h

theorem ctrsFold_prov_nm (n n' : String) (ctrs : List CtrEntry) (st : LoadState)
    (x : String)
    (h : (alookup2 ((ctrs.foldl (fun s e => processCtrEntry s n e) st).network_names)
      n' x).isSome = true) :
    (alookup2 st.network_names n' x).isSome = true ∨
      (n' = n ∧ ∃ e ∈ ctrs, x ∈ e.aliases) := by
  induction ctrs generalizing st with
  | nil => exact Or.inl h
  | cons e rest ih =>
    rcases ih _ h with h1 | h1
    · rcases processCtrEntry_prov_nm st n n' e x h1 with h2 | h2
      · exact Or.inl h2
      · exact Or.inr ⟨h2.1, e, List.mem_cons_self e rest, h2.2⟩
    · exact Or.inr ⟨h1.1, h1.2.choose, List.mem_cons_of_mem e h1.2.choose_spec.1,
        h1.2.choose_spec.2⟩

theorem processFile_network_names_grow (st : LoadState) (n : String)
    (binds : List IpAddr) (ctrs : List CtrEntry) :
    Grow2 st.network_names (processFile st n binds ctrs).network_names := by
  unfold processFile
  have h := ctrsFold_grow_nm n ctrs (binds.foldl (addBind n) st)
  rwa [bindFold_network_names] at h

theorem processFile_reverse_grow (st : LoadState) (n : String)
    (binds : List IpAddr) (ctrs : List CtrEntry) :
    Grow2 st.reverse (processFile st n binds ctrs).reverse := by
  unfold processFile
  have h := ctrsFold_grow_rev n ctrs (binds.foldl (addBind n) st)
  rwa [bindFold_reverse] at h

theorem processFile_establish_nm (st : LoadState) (n : String)
    (binds : List IpAddr) (ctrs : List CtrEntry) (e : CtrEntry) (he : e ∈ ctrs)
    (x : String) (hx : x ∈ e.aliases) :
    ∃ l, alookup2 (processFile st n binds ctrs).network_names n x = some l ∧
      e.ips <:+: l := by
  unfold processFile
  exact ctrsFold_establish_nm n ctrs _ e he x hx

theorem processFile_establish_rev (st : LoadState) (n : String)
    (binds : List IpAddr) (ctrs : List CtrEntry) (e : CtrEntry) (he : e ∈ ctrs)
    (a : IpAddr) (ha : a ∈ e.ips) :
    ∃ l, alookup2 (processFile st n binds ctrs).reverse n a = some l ∧
      e.aliases <:+: l := by
  unfold processFile
  exact ctrsFold_establish_rev n ctrs _ e he a ha

theorem processFile_prov_nm (st : LoadState) (n n' : String)
    (binds : List IpAddr) (ctrs : List CtrEntry) (x : String)
    (h : (alookup2 (processFile st n binds ctrs).network_names n' x).isSome = true) :
    (alookup2 st.network_names n' x).isSome = true ∨
      (n' = n ∧ ∃ e ∈ ctrs, x ∈ e.aliases) := by
  unfold processFile at h
  have h2 := ctrsFold_prov_nm n n' ctrs (binds.foldl (addBind n) st) x h
  rwa [bindFold_network_names] at h2

/-! ### `loadEntries`: the directory walk -/

theorem loadEntries_grow_nm :
    ∀ (es : List (Option DirEntry)) (st st' : LoadState),
      loadEntries st es = .ok st' → Grow2 st.network_names st'.network_names := by
  intro es
  induction es with
  | nil =>
    intro st st' h
    simp only [loadEntries] at h
    cases h
    exact grow2_refl _
  | cons de rest ih =>
    intro st st' h
    cases de with
    | none =>
      simp only [loadEntries] at h
      exact ih st st' h
    | some d =>
      by_cases hp : d.name = AARDVARK_PID_FILE
      · simp only [loadEntries, hp, if_pos] at h
        exact ih st st' h
      · cases hc : d.content with
        | none => simp [loadEntries, hp, hc] at h
        | some c =>
          cases hr : parse_config c with
          | error e => simp [loadEntries, hp, hc, hr] at h
          | ok r =>
            obtain ⟨bs, cs⟩ := r
            simp only [loadEntries, hp, hc, hr, if_neg] at h
            exact grow2_trans (processFile_network_names_grow st d.name bs cs) (ih _ st' h)

theorem loadEntries_grow_rev :
    ∀ (es : List (Option DirEntry)) (st st' : LoadState),
      loadEntries st es = .ok st' → Grow2 st.reverse st'.reverse := by
  intro es
  induction es with
  | nil =>
    intro st st' h
    simp only [loadEntries] at h
    cases h
    exact grow2_refl _
  | cons de rest ih =>
    intro st st' h
    cases de with
    | none =>
      simp only [loadEntries] at h
      exact ih st st' h
    | some d =>
      by_cases hp : d.name = AARDVARK_PID_FILE
      · simp only [loadEntries, hp, if_pos] at h
        exact ih st st' h
      · cases hc : d.content with
        | none => simp [loadEntries, hp, hc] at h
        | some c =>
          cases hr : parse_config c with
          | error e => simp [loadEntries, hp, hc, hr] at h
          | ok r =>
            obtain ⟨bs, cs⟩ := r
            simp only [loadEntries, hp, hc, hr, if_neg] at h
            exact grow2_trans (processFile_reverse_grow st d.name bs cs) (ih _ st' h)

theorem loadEntries_processed :
    ∀ (es : List (Option DirEntry)) (st st' : LoadState),
      loadEntries st es = .ok st' → ∀ d : DirEntry, some d ∈ es →
      d.name ≠ AARDVARK_PID_FILE →
      ∃ c bs cs, d.content = some c ∧ parse_config c = .ok (bs, cs) := by
  intro es
  induction es with
  | nil =>
    intro st st' _ d hd
    simp at hd
  | cons de rest ih =>
    intro st st' h d hd hn
    cases de with
    | none =>
      simp only [loadEntries] at h
      rcases List.mem_cons.mp hd with h1 | h1
      · cases h1
      · exact ih st st' h d h1 hn
    | some d0 =>
      by_cases hp : d0.name = AARDVARK_PID_FILE
      · simp only [loadEntries, hp, if_pos] at h
        rcases List.mem_cons.mp hd with h1 | h1
        · cases h1; exact absurd hp hn
        · exact ih st st' h d h1 hn
      · cases hc : d0.content with
        | none => simp [loadEntries, hp, hc] at h
        | some c =>
          cases hr : parse_config c with
          | error e => simp [loadEntries, hp, hc, hr] at h
          | ok r =>
            obtain ⟨bs, cs⟩ := r
            simp only [loadEntries, hp, hc, hr, if_neg] at h
            rcases List.mem_cons.mp hd with h1 | h1
            · cases h1
              exact ⟨c, bs, cs, hc, hr⟩
            · exact ih _ st' h d h1 hn

theorem loadEntries_establish_nm :
    ∀ (es : List (Option DirEntry)) (st st' : LoadState),
      loadEntries st es = .ok st' → ∀ d : DirEntry, some d ∈ es →
      d.name ≠ AARDVARK_PID_FILE →
      ∀ c bs cs, d.content = some c → parse_config c = .ok (bs, cs) →
      ∀ e ∈ cs, ∀ x ∈ e.aliases,
      ∃ l, alookup2 st'.network_names d.name x = some l ∧ e.ips <:+: l := by
  intro es
  induction es with
  | nil =>
    intro st st' _ d hd
    simp at hd
  | cons de rest ih =>
    intro st st' h d hd hn c bs cs hc0 hr0 e he x hx
    cases de with
    | none =>
      simp only [loadEntries] at h
      rcases List.mem_cons.mp hd with h1 | h1
      · cases h1
      · exact ih st st' h d h1 hn c bs cs hc0 hr0 e he x hx
    | some d0 =>
      by_cases hp : d0.name = AARDVARK_PID_FILE
      · simp only [loadEntries, hp, if_pos] at h
        rcases List.mem_cons.mp hd with h1 | h1
        · cases h1; exact absurd hp hn
        · exact ih st st' h d h1 hn c bs cs hc0 hr0 e he x hx
      · cases hc : d0.content with
        | none => simp [loadEntries, hp, hc] at h
        | some c0 =>
          cases hr : parse_config c0 with
          | error er => simp [loadEntries, hp, hc, hr] at h
          | ok r =>
            obtain ⟨bs0, cs0⟩ := r
            simp only [loadEntries, hp, hc, hr, if_neg] at h
            rcases List.mem_cons.mp hd with h1 | h1
            · cases h1
              rw [hc0] at hc
              cases hc
              rw [hr0] at hr
              cases hr
              obtain ⟨l, hl, hpre⟩ :=
                processFile_establish_nm st d.name bs cs e he x hx
              obtain ⟨l', hl', hp'⟩ :=
                loadEntries_grow_nm rest _ st' h d.name x l hl
              exact ⟨l', hl', hpre.trans hp'.isInfix⟩
            · exact ih _ st' h d h1 hn c bs cs hc0 hr0 e he x hx

theorem loadEntries_establish_rev :
    ∀ (es : List (Option DirEntry)) (st st' : LoadState),
      loadEntries st es = .ok st' → ∀ d : DirEntry, some d ∈ es →
      d.name ≠ AARDVARK_PID_FILE →
      ∀ c bs cs, d.content = some c → parse_config c = .ok (bs, cs) →
      ∀ e ∈ cs, ∀ a ∈ e.ips,
      ∃ l, alookup2 st'.reverse d.name a = some l ∧ e.aliases <:+: l := by
  intro es
  induction es with
  | nil =>
    intro st st' _ d hd
    simp at hd
  | cons de rest ih =>
    intro st st' h d hd hn c bs cs hc0 hr0 e he a ha
    cases de with
    | none =>
      simp only [loadEntries] at h
      rcases List.mem_cons.mp hd with h1 | h1
      · cases h1
      · exact ih st st' h d h1 hn c bs cs hc0 hr0 e he a ha
    | some d0 =>
      by_cases hp : d0.name = AARDVARK_PID_FILE
      · simp only [loadEntries, hp, if_pos] at h
        rcases List.mem_cons.mp hd with h1 | h1
        · cases h1; exact absurd hp hn
        · exact ih st st' h d h1 hn c bs cs hc0 hr0 e he a ha
      · cases hc : d0.content with
        | none => simp [loadEntries, hp, hc] at h
        | some c0 =>
          cases hr : parse_config c0 with
          | error er => simp [loadEntries, hp, hc, hr] at h
          | ok r =>
            obtain ⟨bs0, cs0⟩ := r
            simp only [loadEntries, hp, hc, hr, if_neg] at h
            rcases List.mem_cons.mp hd with h1 | h1
            · cases h1
              rw [hc0] at hc
              cases hc
              rw [hr0] at hr
              cases hr
              obtain ⟨l, hl, hpre⟩ :=
                processFile_establish_rev st d.name bs cs e he a ha
              obtain ⟨l', hl', hp'⟩ :=
                loadEntries_grow_rev rest _ st' h d.name a l hl
              exact ⟨l', hl', hpre.trans hp'.isInfix⟩
            · exact ih _ st' h d h1 hn c bs cs hc0 hr0 e he a ha

theorem loadEntries_prov_nm :
    ∀ (es : List (Option DirEntry)) (st st' : LoadState),
      loadEntries st es = .ok st' → ∀ n x,
      (alookup2 st'.network_names n x).isSome = true →
      (alookup2 st.network_names n x).isSome = true ∨
        ∃ d : DirEntry, some d ∈ es ∧ d.name = n ∧
          d.name ≠ AARDVARK_PID_FILE ∧
          ∃ c bs cs, d.content = some c ∧ parse_config c = .ok (bs, cs) ∧
            ∃ e ∈ cs, x ∈ e.aliases := by
  intro es
  induction es with
  | nil =>
    intro st st' h n x hs
    simp only [loadEntries] at h
    cases h
    exact Or.inl hs
  | cons de rest ih =>
    intro st st' h n x hs
    cases de with
    | none =>
      simp only [loadEntries] at h
      rcases ih st st' h n x hs with h1 | ⟨d, hd, rest'⟩
      · exact Or.inl h1
      · exact Or.inr ⟨d, List.mem_cons_of_mem _ hd, rest'⟩
    | some d0 =>
      by_cases hp : d0.name = AARDVARK_PID_FILE
      · simp only [loadEntries, hp, if_pos] at h
        rcases ih st st' h n x hs with h1 | ⟨d, hd, rest'⟩
        · exact Or.inl h1
        · exact Or.inr ⟨d, List.mem_cons_of_mem _ hd, rest'⟩
      · cases hc : d0.content with
        | none => simp [loadEntries, hp, hc] at h
        | some c =>
          cases hr : parse_config c with
          | error er => simp [loadEntries, hp, hc, hr] at h
          | ok r =>
            obtain ⟨bs, cs⟩ := r
            simp only [loadEntries, hp, hc, hr, if_neg] at h
            rcases ih _ st' h n x hs with h1 | ⟨d, hd, rest'⟩
            · rcases processFile_prov_nm st d0.name n bs cs x h1 with h2 | ⟨h2, e, he, hx⟩
              · exact Or.inl h2
              · exact Or.inr ⟨d0, List.mem_cons_self _ _, h2.symm, hp,
                  c, bs, cs, hc, hr, e, he, hx⟩
            · exact Or.inr ⟨d, List.mem_cons_of_mem _ hd, rest'⟩

theorem loadEntries_skip :
    ∀ (pre post : List (Option DirEntry)) (st : LoadState),
      loadEntries st (pre ++ none :: post) = loadEntries st (pre ++ post) := by
  intro pre
  induction pre with
  | nil =>
    intro post st
    simp only [List.nil_append, loadEntries]
  | cons de rest ih =>
    intro post st
    cases de with
    | none =>
      simp only [List.cons_append, loadEntries]
      exact ih post st
    | some d =>
      by_cases hp : d.name = AARDVARK_PID_FILE
      · simp only [List.cons_append, loadEntries, hp, if_pos]
        exact ih post st
      · cases hc : d.content with
        | none => simp [loadEntries, hp, hc]
        | some c =>
          cases hr : parse_config c with
          | error er => simp [loadEntries, hp, hc, hr]
          | ok r =>
            obtain ⟨bs, cs⟩ := r
            simp only [List.cons_append, loadEntries, hp, hc, hr, if_neg]
            exact ih post _

theorem loadEntries_err :
    ∀ (es : List (Option DirEntry)) (st : LoadState) (d : DirEntry),
      some d ∈ es → d.name ≠ AARDVARK_PID_FILE →
      (d.content = none ∨ ∃ c, d.content = some c ∧ isErrE (parse_config c) = true) →
      isErrE (loadEntries st es) = true := by
  intro es
  induction es with
  | nil =>
    intro st d hd
    simp at hd
  | cons de rest ih =>
    intro st d hd hn hbad
    cases de with
    | none =>
      simp only [loadEntries]
      rcases List.mem_cons.mp hd with h1 | h1
      · cases h1
      · exact ih st d h1 hn hbad
    | some d0 =>
      by_cases hp : d0.name = AARDVARK_PID_FILE
      · simp only [loadEntries, hp, if_pos]
        rcases List.mem_cons.mp hd with h1 | h1
        · cases h1; exact absurd hp hn
        · exact ih st d h1 hn hbad
      · cases hc : d0.content with
        | none => simp [loadEntries, hp, hc, isErrE]
        | some c =>
          cases hr : parse_config c with
          | error er => simp [loadEntries, hp, hc, hr, isErrE]
          | ok r =>
            obtain ⟨bs, cs⟩ := r
            rcases List.mem_cons.mp hd with h1 | h1
            · cases h1
              rcases hbad with h2 | ⟨c', hc', he'⟩
              · rw [h2] at hc; cases hc
              · rw [hc'] at hc
                cases hc
                rw [hr] at he'
                simp [isErrE] at he'
            · simp only [loadEntries, hp, hc, hr, if_neg]
              exact ih _ d h1 hn hbad

/-! ### Lowercasing never leaves an ASCII uppercase letter -/

theorem toNat_ofNat_of_valid (n : Nat) (h : n.isValidChar) :
    (Char.ofNat n).toNat = n := by
  simp only [Char.ofNat, dif_pos h, Char.ofNatAux, Char.toNat, UInt32.toNat,
    BitVec.toNat_ofNatLt]

theorem lowerChar_not_upper (c : Char) :
    (65 ≤ (lowerChar c).toNat && (lowerChar c).toNat ≤ 90) = false := by
  unfold lowerChar
  by_cases h : 65 ≤ c.toNat ∧ c.toNat ≤ 90
  · rw [if_pos h]
    have hv : (c.toNat + 32).isValidChar := Or.inl (by omega)
    rw [toNat_ofNat_of_valid _ hv]
    simp only [Bool.and_eq_false_iff, decide_eq_false_iff_not]
    omega
  · rw [if_neg h]
    simp only [Bool.and_eq_false_iff, decide_eq_false_iff_not]
    omega

theorem strToLower_noUpper (s : String) : containsUpper (strToLower s) = false := by
  unfold containsUpper strToLower
  simp only [List.any_eq_false]
  intro c hc
  simp only [List.mem_map] at hc
  obtain ⟨c0, _, hc0⟩ := hc
  subst hc0
  simp [lowerChar_not_upper c0]

/-! ### `parseCtrParts`: shape of a successful parse, error conditions -/

/-- A non-first non-empty line with fewer than four space-separated
fields. -/
def lineTooShort (l : String) : Prop :=
  (splitChar ' ' l).length < 4

/-- A container line (at least four fields) containing an IP literal
that fails to parse: a v4 address, a v6 address, or (on an exactly
five-field line) an upstream DNS server. -/
def lineHasBadLiteral (l : String) : Prop :=
  (splitChar ' ' l).getD 1 "" ≠ "" ∧
    traverseOpt parseIpv4 (splitChar ',' ((splitChar ' ' l).getD 1 "")) = none ∨
  (splitChar ' ' l).getD 2 "" ≠ "" ∧
    traverseOpt parseIpv6 (splitChar ',' ((splitChar ' ' l).getD 2 "")) = none ∨
  (splitChar ' ' l).length = 5 ∧ (splitChar ' ' l).getD 4 "" ≠ "" ∧
    traverseOpt parseIp (splitChar ',' ((splitChar ' ' l).getD 4 "")) = none

theorem parseOptList_err {α : Type} (p : String → Option α) (field : String)
    (hne : field ≠ "") (hnone : traverseOpt p (splitChar ',' field) = none) :
    parseOptList p field = .error "error parsing IP address" := by
  unfold parseOptList
  rw [if_neg hne, hnone]

theorem parseOptList_ok_not_bad {α : Type} (p : String → Option α)
    (field : String) (v : Option (List α)) (h : parseOptList p field = .ok v) :
    ¬(field ≠ "" ∧ traverseOpt p (splitChar ',' field) = none) := by
  rintro ⟨hne, hnone⟩
  rw [parseOptList_err p field hne hnone] at h
  cases h

/-- Master shape lemma: everything a successful container-line parse
guarantees. -/
theorem parseCtrParts_ok_good (parts : List String) (e : CtrEntry)
    (h : parseCtrParts parts = .ok e) :
    ¬(parts.length < 4) ∧
    ¬(parts.getD 1 "" ≠ "" ∧
        traverseOpt parseIpv4 (splitChar ',' (parts.getD 1 "")) = none) ∧
    ¬(parts.getD 2 "" ≠ "" ∧
        traverseOpt parseIpv6 (splitChar ',' (parts.getD 2 "")) = none) ∧
    ¬(parts.length = 5 ∧ parts.getD 4 "" ≠ "" ∧
        traverseOpt parseIp (splitChar ',' (parts.getD 4 "")) = none) ∧
    e.aliases = (splitChar ',' (parts.getD 3 "")).map strToLower ∧
    e.id = strToLower (parts.getD 0 "") := by
  unfold parseCtrParts at h
  by_cases hlen : parts.length < 4
  · rw [if_pos hlen] at h
    cases h
  · rw [if_neg hlen] at h
    cases hv4 : parseOptList parseIpv4 (parts.getD 1 "") with
    | error e0 =>
      simp only [hv4] at h
      cases h
    | ok v4 =>
      simp only [hv4] at h
      cases hv6 : parseOptList parseIpv6 (parts.getD 2 "") with
      | error e0 =>
        simp only [hv6] at h
        cases h
      | ok v6 =>
        simp only [hv6] at h
        by_cases hemp : ((splitChar ',' (parts.getD 3 "")).map strToLower).isEmpty = true
        · rw [if_pos hemp] at h
          cases h
        · rw [if_neg hemp] at h
          cases hdns : (if parts.length = 5 then parseOptList parseIp (parts.getD 4 "")
              else .ok none) with
          | error e0 =>
            simp only [hdns] at h
            cases h
          | ok dns =>
            simp only [hdns] at h
            cases h
            refine ⟨hlen, parseOptList_ok_not_bad _ _ _ hv4,
              parseOptList_ok_not_bad _ _ _ hv6, ?_, rfl, rfl⟩
            rintro ⟨h5, hne, hnone⟩
            rw [if_pos h5] at hdns
            exact parseOptList_ok_not_bad _ _ _ hdns ⟨hne, hnone⟩

theorem parseCtrParts_isErr_of_short (l : String) (h : lineTooShort l) :
    isErrE (parseCtrParts (splitChar ' ' l)) = true := by
  cases hr : parseCtrParts (splitChar ' ' l) with
  | error e => rfl
  | ok e => exact absurd h (parseCtrParts_ok_good _ e hr).1

theorem parseCtrParts_isErr_of_badlit (l : String) (h : lineHasBadLiteral l) :
    isErrE (parseCtrParts (splitChar ' ' l)) = true := by
  cases hr : parseCtrParts (splitChar ' ' l) with
  | error e => rfl
  | ok e =>
    obtain ⟨_, hb1, hb2, hb3, _, _⟩ := parseCtrParts_ok_good _ e hr
    rcases h with h | h | h
    · exact absurd h hb1
    · exact absurd h hb2
    · exact absurd h hb3

/-! ### `parseLines`: error conditions of one file -/

/-- The non-empty lines of a file's contents, in order; the head is the
bind-address line, the rest are container lines. -/
def nonEmptyLines (c : String) : List String :=
  (splitChar '\n' c).filter (fun l => l != "")

/-- The container lines still to be processed: all non-empty lines when
the bind line has been consumed, all but the first otherwise. -/
def ctrLinesOf (isFirst : Bool) (lines : List String) : List String :=
  if isFirst then (lines.filter (fun l => l != "")).drop 1
  else lines.filter (fun l => l != "")

theorem parseLines_isErr_allEmpty :
    ∀ (lines : List String) (ctrs : List CtrEntry),
      (∀ l ∈ lines, l = "") → isErrE (parseLines true [] ctrs lines) = true := by
  intro lines
  induction lines with
  | nil => intro ctrs _; rfl
  | cons l rest ih =>
    intro ctrs h
    have hl : l = "" := h l (List.mem_cons_self l rest)
    unfold parseLines
    rw [if_pos hl]
    exact ih ctrs (fun l' hl' => h l' (List.mem_cons_of_mem l hl'))

theorem parseLines_isErr_badBind :
    ∀ (lines : List String) (binds : List IpAddr) (ctrs : List CtrEntry) (b : String),
      (lines.filter (fun l => l != "")).head? = some b →
      traverseOpt parseIp (splitChar ',' b) = none →
      isErrE (parseLines true binds ctrs lines) = true := by
  intro lines
  induction lines with
  | nil => intro binds ctrs b h; simp at h
  | cons l rest ih =>
    intro binds ctrs b h hb
    by_cases hl : l = ""
    · subst hl
      unfold parseLines
      rw [if_pos rfl]
      simp only [List.filter_cons, bne_self_eq_false, if_neg] at h
      exact ih binds ctrs b (by simpa using h) hb
    · have : (List.filter (fun l => l != "") (l :: rest)).head? = some l := by
        simp [List.filter_cons, hl]
      rw [this] at h
      cases h
      unfold parseLines
      rw [if_neg hl, if_pos rfl, hb]
      rfl

theorem parseLines_isErr_badCtr :
    ∀ (lines : List String) (isFirst : Bool) (binds : List IpAddr)
      (ctrs : List CtrEntry),
      (∃ l ∈ ctrLinesOf isFirst lines, lineTooShort l ∨ lineHasBadLiteral l) →
      isErrE (parseLines isFirst binds ctrs lines) = true := by
  intro lines
  induction lines with
  | nil =>
    intro isFirst binds ctrs h
    unfold ctrLinesOf at h
    cases isFirst <;> simp at h
  | cons l rest ih =>
    intro isFirst binds ctrs h
    by_cases hl : l = ""
    · subst hl
      unfold parseLines
      rw [if_pos rfl]
      refine ih isFirst binds ctrs ?_
      unfold ctrLinesOf at h ⊢
      simpa using h
    · cases isFirst with
      | true =>
        unfold parseLines
        rw [if_neg hl, if_pos rfl]
        cases hbind : traverseOpt parseIp (splitChar ',' l) with
        | none => rfl
        | some bs =>
          refine ih false (binds ++ bs) ctrs ?_
          unfold ctrLinesOf at h ⊢
          simpa [List.filter_cons, hl] using h
      | false =>
        unfold ctrLinesOf at h
        rw [List.filter_cons] at h
        simp only [bne_iff_ne, ne_eq, hl, not_false_eq_true, if_pos, decide_True] at h
        unfold parseLines
        rw [if_neg hl]
        simp only [Bool.false_eq_true, if_neg]
        rcases h with ⟨l', hl', hbad⟩
        rcases List.mem_cons.mp hl' with h1 | h1
        · subst h1
          have herr : isErrE (parseCtrParts (splitChar ' ' l')) = true := by
            rcases hbad with h2 | h2
            · exact parseCtrParts_isErr_of_short l' h2
            · exact parseCtrParts_isErr_of_badlit l' h2
          cases hcp : parseCtrParts (splitChar ' ' l') with
          | error e => rfl
          | ok entry => rw [hcp] at herr; simp [isErrE] at herr
        · cases hcp : parseCtrParts (splitChar ' ' l) with
          | error e => rfl
          | ok entry =>
            refine ih false binds (ctrs ++ [entry]) ?_
            unfold ctrLinesOf
            exact ⟨l', h1, hbad⟩

/-! ### Error conditions of one descriptor file -/

/-- The file has no non-empty line at all, hence zero bind addresses. -/
def hasNoBindLine (c : String) : Prop := nonEmptyLines c = []

/-- The bind line contains an IP literal that fails to parse. -/
def hasBadBindLiteral (c : String) : Prop :=
  ∃ b, (nonEmptyLines c).head? = some b ∧
    traverseOpt parseIp (splitChar ',' b) = none

/-- Some container line has fewer than four space-separated fields. -/
def hasShortCtrLine (c : String) : Prop :=
  ∃ l ∈ (nonEmptyLines c).drop 1, lineTooShort l

/-- Some container line contains an IP literal that fails to parse. -/
def hasBadCtrLiteral (c : String) : Prop :=
  ∃ l ∈ (nonEmptyLines c).drop 1, lineHasBadLiteral l

theorem parse_config_isErr_of_bad (c : String)
    (h : hasNoBindLine c ∨ hasBadBindLiteral c ∨ hasShortCtrLine c ∨
      hasBadCtrLiteral c) :
    isErrE (parse_config c) = true := by
  unfold parse_config
  rcases h with h | h | h | h
  · apply parseLines_isErr_allEmpty
    unfold hasNoBindLine nonEmptyLines at h
    rw [List.filter_eq_nil_iff] at h
    intro l hl
    simpa using h l hl
  · obtain ⟨b, hb, hnone⟩ := h
    exact parseLines_isErr_badBind _ [] [] b hb hnone
  · apply parseLines_isErr_badCtr
    obtain ⟨l, hl, hbad⟩ := h
    exact ⟨l, by simpa [ctrLinesOf, nonEmptyLines] using hl, Or.inl hbad⟩
  · apply parseLines_isErr_badCtr
    obtain ⟨l, hl, hbad⟩ := h
    exact ⟨l, by simpa [ctrLinesOf, nonEmptyLines] using hl, Or.inr hbad⟩

/-! ### Invariant: each container's network-membership list is deduplicated -/

/-- Every membership list in the map has no duplicate network name. -/
def MembNodup (m : AList String (List String)) : Prop :=
  ∀ id l, alookup m id = some l → l.Nodup

theorem membNodup_aupd (m : AList String (List String)) (k : String)
    (f : List String → List String) (hf : ∀ l, l.Nodup → (f l).Nodup)
    (hm : MembNodup m) : MembNodup (aupd m k [] f) := by
  intro id l h
  by_cases hk : id = k
  · subst hk
    rw [alookup_aupd_self] at h
    cases hml : alookup m id with
    | none =>
      rw [hml] at h
      cases h
      exact hf [] List.nodup_nil
    | some l0 =>
      rw [hml] at h
      cases h
      exact hf l0 (hm id l0 hml)
  · rw [alookup_aupd_ne _ _ _ _ _ hk] at h
    exact hm id l h

theorem dedupPush_nodup (n : String) (l : List String) (h : l.Nodup) :
    (if n ∈ l then l else l ++ [n]).Nodup := by
  by_cases hn : n ∈ l
  · rwa [if_pos hn]
  · rw [if_neg hn]
    rw [List.nodup_append]
    refine ⟨h, List.nodup_singleton n, ?_⟩
    intro a ha hmem
    simp only [List.mem_singleton] at hmem
    exact hn (hmem ▸ ha)

theorem processCtrEntry_membNodup (st : LoadState) (n : String) (e : CtrEntry)
    (hm : MembNodup st.network_membership) :
    MembNodup (processCtrEntry st n e).network_membership := by
  rw [processCtrEntry_network_membership]
  exact membNodup_aupd _ _ _ (dedupPush_nodup n) hm

theorem processFile_membNodup (st : LoadState) (n : String) (binds : List IpAddr)
    (ctrs : List CtrEntry) (hm : MembNodup st.network_membership) :
    MembNodup (processFile st n binds ctrs).network_membership := by
  unfold processFile
  have h0 : MembNodup ((binds.foldl (addBind n) st).network_membership) := by
    rwa [bindFold_network_membership]
  revert h0
  generalize binds.foldl (addBind n) st = st0
  induction ctrs generalizing st0 with
  | nil => intro h; exact h
  | cons e rest ih =>
    intro h
    exact ih _ (processCtrEntry_membNodup st0 n e h)

theorem loadEntries_membNodup :
    ∀ (es : List (Option DirEntry)) (st st' : LoadState),
      loadEntries st es = .ok st' → MembNodup st.network_membership →
      MembNodup st'.network_membership := by
  intro es
  induction es with
  | nil =>
    intro st st' h hm
    simp only [loadEntries] at h
    cases h
    exact hm
  | cons de rest ih =>
    intro st st' h hm
    cases de with
    | none =>
      simp only [loadEntries] at h
      exact ih st st' h hm
    | some d =>
      by_cases hp : d.name = AARDVARK_PID_FILE
      · simp only [loadEntries, hp, if_pos] at h
        exact ih st st' h hm
      · cases hc : d.content with
        | none => simp [loadEntries, hp, hc] at h
        | some c =>
          cases hr : parse_config c with
          | error e => simp [loadEntries, hp, hc, hr] at h
          | ok r =>
            obtain ⟨bs, cs⟩ := r
            simp only [loadEntries, hp, hc, hr, if_neg] at h
            exact ih _ st' h (processFile_membNodup st d.name bs cs hm)

/-! ### Invariant: every key of `container_ips` is a key of
`network_membership` (so the final fold can never hit its error arm) -/

/-- Every container id recorded in `container_ips` also has a
membership entry. -/
def KeysSub (st : LoadState) : Prop :=
  ∀ id, (alookup st.container_ips id).isSome = true →
    (alookup st.network_membership id).isSome = true

theorem processCtrEntry_keysSub (st : LoadState) (n : String) (e : CtrEntry)
    (hs : KeysSub st) : KeysSub (processCtrEntry st n e) := by
  intro id h
  rw [processCtrEntry_container_ips] at h
  rw [processCtrEntry_network_membership]
  rcases (alookup_aupd_isSome _ _ _ _ _).mp h with h1 | h1
  · exact (alookup_aupd_isSome _ _ _ _ _).mpr (Or.inl h1)
  · exact (alookup_aupd_isSome _ _ _ _ _).mpr (Or.inr (hs id h1))

theorem processFile_keysSub (st : LoadState) (n : String) (binds : List IpAddr)
    (ctrs : List CtrEntry) (hs : KeysSub st) :
    KeysSub (processFile st n binds ctrs) := by
  unfold processFile
  have h0 : KeysSub (binds.foldl (addBind n) st) := by
    intro id h
    rw [bindFold_container_ips] at h
    rw [bindFold_network_membership]
    exact hs id h
  revert h0
  generalize binds.foldl (addBind n) st = st0
  induction ctrs generalizing st0 with
  | nil => intro h; exact h
  | cons e rest ih =>
    intro h
    exact ih _ (processCtrEntry_keysSub st0 n e h)

theorem loadEntries_keysSub :
    ∀ (es : List (Option DirEntry)) (st st' : LoadState),
      loadEntries st es = .ok st' → KeysSub st → KeysSub st' := by
  intro es
  induction es with
  | nil =>
    intro st st' h hs
    simp only [loadEntries] at h
    cases h
    exact hs
  | cons de rest ih =>
    intro st st' h hs
    cases de with
    | none =>
      simp only [loadEntries] at h
      exact ih st st' h hs
    | some d =>
      by_cases hp : d.name = AARDVARK_PID_FILE
      · simp only [loadEntries, hp, if_pos] at h
        exact ih st st' h hs
      · cases hc : d.content with
        | none => simp [loadEntries, hp, hc] at h
        | some c =>
          cases hr : parse_config c with
          | error e => simp [loadEntries, hp, hc, hr] at h
          | ok r =>
            obtain ⟨bs, cs⟩ := r
            simp only [loadEntries, hp, hc, hr, if_neg] at h
            exact ih _ st' h (processFile_keysSub st d.name bs cs hs)

theorem buildCtrs_ok (st : LoadState) (hsub : KeysSub st) :
    ∀ (o : List String) (acc : AList IpAddr (List String)),
      isOkE (buildCtrs st o acc) = true := by
  intro o
  induction o with
  | nil => intro acc; rfl
  | cons id rest ih =>
    intro acc
    unfold buildCtrs
    cases hc : alookup st.container_ips id with
    | none => exact ih acc
    | some ips =>
      have hsome := hsub id (by rw [hc]; rfl)
      cases hm : alookup st.network_membership id with
      | none => rw [hm] at hsome; simp at hsome
      | some s => exact ih _

/-! ### Bridges between `parse_configs` and its pieces -/

theorem parse_configs_isErr_of_load (entries : List (Option DirEntry))
    (h : isErrE (loadEntries initState entries) = true) :
    isErrE (parse_configs entries) = true := by
  unfold parse_configs parse_configs_order
  cases hl : loadEntries initState entries with
  | error e => rfl
  | ok st =>
    rw [hl] at h
    simp [isErrE] at h

theorem parse_configs_components (entries : List (Option DirEntry))
    (hok : isOkE (parse_configs entries) = true) :
    loadEntries initState entries = .ok (loadedState entries) ∧
    (loadedBackend entries).name_mappings = (loadedState entries).network_names ∧
    (loadedBackend entries).reverse_mappings = (loadedState entries).reverse := by
  unfold parse_configs parse_configs_order canonicalKeys at hok
  unfold loadedBackend loadedState parse_configs parse_configs_order canonicalKeys
  cases hl : loadEntries initState entries with
  | error e =>
    simp only [hl, isOkE] at hok
    exact Bool.noConfusion hok
  | ok st =>
    simp only [hl] at hok ⊢
    cases hb : buildCtrs st (keysOf st.container_ips) [] with
    | error e =>
      simp only [hb, isOkE] at hok
      exact Bool.noConfusion hok
    | ok ctrs =>
      simp only [hb]
      exact ⟨trivial, rfl, rfl⟩

theorem parse_configs_order_components (entries : List (Option DirEntry))
    (st : LoadState) (hl : loadEntries initState entries = .ok st)
    (o : List String) :
    isOkE (parse_configs_order entries o) = true ∧
    (orderedBackend entries o).name_mappings = st.network_names ∧
    (orderedBackend entries o).reverse_mappings = st.reverse ∧
    (orderedBackend entries o).ctr_dns_server = st.ctr_dns_server := by
  have hsub : KeysSub st :=
    loadEntries_keysSub entries initState st hl (fun id h => by simp [alookup, initState] at h)
  unfold orderedBackend parse_configs_order
  simp only [hl]
  cases hb : buildCtrs st o [] with
  | error e =>
    have hbo := buildCtrs_ok st hsub o []
    rw [hb] at hbo
    simp [isOkE] at hbo
  | ok ctrs =>
    simp only [hb]
    exact ⟨rfl, rfl, rfl, rfl⟩

/-! ### Provenance of container entries in a successful file parse -/

theorem parseLines_ctrs_from :
    ∀ (lines : List String) (isFirst : Bool) (binds : List IpAddr)
      (ctrs : List CtrEntry) (bs : List IpAddr) (cs : List CtrEntry),
      parseLines isFirst binds ctrs lines = .ok (bs, cs) →
      ∀ e ∈ cs, e ∈ ctrs ∨ ∃ parts, parseCtrParts parts = .ok e := by
  intro lines
  induction lines with
  | nil =>
    intro isFirst binds ctrs bs cs h e he
    unfold parseLines at h
    by_cases hb : binds.isEmpty
    · rw [if_pos hb] at h
      cases h
    · rw [if_neg hb] at h
      cases h
      exact Or.inl he
  | cons l rest ih =>
    intro isFirst binds ctrs bs cs h e he
    by_cases hl : l = ""
    · subst hl
      unfold parseLines at h
      rw [if_pos rfl] at h
      exact ih isFirst binds ctrs bs cs h e he
    · unfold parseLines at h
      rw [if_neg hl] at h
      cases isFirst with
      | true =>
        rw [if_pos rfl] at h
        cases hbind : traverseOpt parseIp (splitChar ',' l) with
        | none =>
          rw [hbind] at h
          cases h
        | some bs0 =>
          rw [hbind] at h
          exact ih false (binds ++ bs0) ctrs bs cs h e he
      | false =>
        simp only [Bool.false_eq_true, if_neg] at h
        cases hcp : parseCtrParts (splitChar ' ' l) with
        | error e0 =>
          rw [hcp] at h
          cases h
        | ok entry =>
          rw [hcp] at h
          rcases ih false binds (ctrs ++ [entry]) bs cs h e he with h1 | h1
          · rcases List.mem_append.mp h1 with h2 | h2
            · exact Or.inl h2
            · simp only [List.mem_singleton] at h2
              subst h2
              exact Or.inr ⟨splitChar ' ' l, hcp⟩
          · exact Or.inr h1

theorem parse_config_ctrs_from (c : String) (bs : List IpAddr)
    (cs : List CtrEntry) (h : parse_config c = .ok (bs, cs)) :
    ∀ e ∈ cs, ∃ parts, parseCtrParts parts = .ok e := by
  intro e he
  rcases parseLines_ctrs_from _ true [] [] bs cs h e he with h1 | h1
  · cases h1
  · exact h1

theorem parsedEntry_aliases_lower (e : CtrEntry) (parts : List String)
    (h : parseCtrParts parts = .ok e) :
    ∀ x ∈ e.aliases, containsUpper x = false := by
  intro x hx
  have hsh := (parseCtrParts_ok_good parts e h).2.2.2.2.1
  rw [hsh] at hx
  simp only [List.mem_map] at hx
  obtain ⟨y, _, hy⟩ := hx
  subst hy
  exact strToLower_noUpper y

/-! ### Small bridges -/

theorem ctrsOf_eq (c : String) (bs : List IpAddr) (cs : List CtrEntry)
    (h : parse_config c = .ok (bs, cs)) : ctrsOf c = cs := by
  unfold ctrsOf
  rw [h]

theorem loadedState_eq (entries : List (Option DirEntry))
    (h : isOkE (loadEntries initState entries) = true) :
    loadEntries initState entries = .ok (loadedState entries) := by
  unfold loadedState
  cases hl : loadEntries initState entries with
  | error e =>
    rw [hl] at h
    exact Bool.noConfusion h
  | ok st => rfl

theorem parse_configs_ok_load (entries : List (Option DirEntry))
    (hok : isOkE (parse_configs entries) = true) :
    isOkE (loadEntries initState entries) = true := by
  rw [(parse_configs_components entries hok).1]
  rfl

/-! ### Concrete fixtures for counterexamples and witnesses -/

/-- A minimal descriptor file: bind `10.0.0.1`; one container with the
16-character id `abcdefabcdefabcd`, address `10.0.0.2`, no v6
addresses, and the single name `foo`. -/
def fooContent : String := "10.0.0.1\nabcdefabcdefabcd 10.0.0.2  foo\n"

/-- A directory holding just the `fooContent` descriptor for network
`n1`. -/
def cexDir : List (Option DirEntry) := [some ⟨"n1", some fooContent⟩]

/-- The container entry that `parse_config fooContent` produces. -/
def fooEntry : CtrEntry :=
  ⟨"abcdefabcdefabcd", some [⟨10, 0, 0, 2⟩], none, ["foo"], none⟩

/-- One network whose two containers share the address `10.0.0.2`. -/
def dupDir : List (Option DirEntry) :=
  [some ⟨"n1", some "10.0.0.1\nc1 10.0.0.2  a\nc2 10.0.0.2  b\n"⟩]

/-- Two networks whose containers `c1` and `c2` share the address
`10.0.0.2`. -/
def twoNetDir : List (Option DirEntry) :=
  [some ⟨"n1", some "10.0.0.1\nc1 10.0.0.2  a\n"⟩,
   some ⟨"n2", some "10.0.0.3\nc2 10.0.0.2  b\n"⟩]

/-- A well-formed one-container descriptor. -/
def goodContent : String := "10.0.0.1\nc1 10.0.0.2  a\n"

/-- A dual-stack descriptor: two v4 and two v6 addresses on one
container named `testmulti1`. -/
def multiContent : String :=
  "10.0.0.1,10.0.1.1,fdfd::1,fddd::1\nid1 10.0.0.2,10.0.1.2 fdfd::2,fddd::2 testmulti1\n"

/-- A directory holding just the dual-stack descriptor for network
`podman`. -/
def multiDir : List (Option DirEntry) := [some ⟨"podman", some multiContent⟩]

/-- The container entry that `parse_config multiContent` produces. -/
def multiEntry : CtrEntry :=
  ⟨"id1", some [⟨10, 0, 0, 2⟩, ⟨10, 0, 1, 2⟩],
   some [⟨65021, 0, 0, 0, 0, 0, 0, 2⟩, ⟨64989, 0, 0, 0, 0, 0, 0, 2⟩],
   ["testmulti1"], none⟩

/-- A descriptor whose container line has an empty fourth (name-list)
field: the line is `ctrid 10.0.0.2  ` followed by two spaces. -/
def emptyNamesContent : String := "10.0.0.1\nctrid 10.0.0.2  \n"

/-- A descriptor whose container line has only two fields. -/
def shortLineContent : String := "10.0.0.1\nc1 10.0.0.2\n"

instance (l : String) : Decidable (lineTooShort l) := by
  unfold lineTooShort
  infer_instance

instance (c : String) : Decidable (hasShortCtrLine c) := by
  unfold hasShortCtrLine
  infer_instance

/-! ### The claims -/

/-- C3 (counterexample): a descriptor file returned by directory
enumeration whose contents can no longer be read when `parse_config`
opens it (`content = none`) makes `parse_configs` return an error —
it is *not* skipped with a warning, and the remaining network `n2` is
not loaded, contradicting the claim. -/
theorem c3_counterexample :
    isErrE (parse_configs [some ⟨"n1", none⟩, some ⟨"n2", some goodContent⟩]) = true ∧
    isOkE (parse_configs [some ⟨"n2", some goodContent⟩]) = true :=
  ⟨rfl, rfl⟩

/-- C3 (amended): only an `Err` yielded by the directory-enumeration
iterator itself is warned about and skipped; such an entry has no
effect whatsoever on the result of `parse_configs`.  (A file that
becomes unreadable after enumeration instead aborts the load with an
error, per the counterexample.) -/
theorem c3_enumeration_error_skipped (pre post : List (Option DirEntry)) :
    parse_configs (pre ++ none :: post) = parse_configs (pre ++ post) := by
  unfold parse_configs parse_configs_order canonicalKeys
  rw [loadEntries_skip]

/-- C4 (code evaluation at the failing input): a container line whose
fourth (name-list) field is empty is *accepted*: `split` yields the
single empty name `""`, so the `aliases.is_empty()` error branch is
unreachable, the entry is stored with the empty string as its only
name, and the whole directory loads successfully — contradicting the
claim that the zero-names case is a hard configuration error. -/
theorem c4_empty_names_accepted :
    parse_config emptyNamesContent =
      .ok ([IpAddr.v4 ⟨10, 0, 0, 1⟩],
        [⟨"ctrid", some [⟨10, 0, 0, 2⟩], none, [""], none⟩]) ∧
    isOkE (parse_configs [some ⟨"n1", some emptyNamesContent⟩]) = true :=
  ⟨rfl, rfl⟩

/-- C5 (counterexample): with two containers of network `n1` sharing
the source address `10.0.0.2`, the final `ip_to_networks` list for that
address is `["n1", "n1"]` — the network name occurs twice, refuting the
claim that each network occurs at most once per source IP. -/
theorem c5_counterexample :
    isOkE (parse_configs dupDir) = true ∧
    alookup (loadedBackend dupDir).ip_mappings (IpAddr.v4 ⟨10, 0, 0, 2⟩) =
      some ["n1", "n1"] ∧
    ¬(List.count "n1" ["n1", "n1"] ≤ 1) :=
  ⟨rfl, rfl, by decide⟩

/-- C5 (amended): deduplication happens one level up — in each
container's network-membership list, which never repeats a network
name; `ip_to_networks` concatenates those lists once per (container,
address-occurrence) pair, so a network may repeat there whenever two
containers (or repeated occurrences of one container's address) share
an IP. -/
theorem c5_membership_nodup (entries : List (Option DirEntry)) (id : String)
    (l : List String)
    (hok : isOkE (loadEntries initState entries) = true)
    (hmem : alookup (loadedState entries).network_membership id = some l) :
    l.Nodup :=
  loadEntries_membNodup entries initState (loadedState entries)
    (loadedState_eq entries hok)
    (fun id' l' h => by simp [initState, alookup] at h) id l hmem

/-- C5 witness: concrete instance of `c5_membership_nodup`. -/
theorem c5_membership_nodup_witness :
    isOkE (loadEntries initState cexDir) = true ∧
    alookup (loadedState cexDir).network_membership "abcdefabcdefabcd" =
      some ["n1"] ∧
    List.Nodup ["n1"] :=
  ⟨rfl, rfl, c5_membership_nodup cexDir "abcdefabcdefabcd" ["n1"] rfl rfl⟩

/-- C8: `parse_configs` returns an error whenever any processed
descriptor file (an enumerated entry that is not the reserved pid file)
has no non-empty line (zero bind IPs), or a bind-line IP literal that
fails to parse, or a container line with fewer than four
space-separated fields, or a container-line IP literal (v4 list, v6
list, or five-field upstream DNS list) that fails to parse. -/
theorem c8_bad_file_errors (entries : List (Option DirEntry)) (n c : String)
    (hmem : some (⟨n, some c⟩ : DirEntry) ∈ entries)
    (hn : n ≠ AARDVARK_PID_FILE)
    (hbad : hasNoBindLine c ∨ hasBadBindLiteral c ∨ hasShortCtrLine c ∨
      hasBadCtrLiteral c) :
    isErrE (parse_configs entries) = true := by
  apply parse_configs_isErr_of_load
  apply loadEntries_err entries initState ⟨n, some c⟩ hmem hn
  exact Or.inr ⟨c, rfl, parse_config_isErr_of_bad c hbad⟩

/-- C8 witness: concrete instance of `c8_bad_file_errors` on a
container line with two fields. -/
theorem c8_bad_file_errors_witness :
    (some (⟨"n1", some shortLineContent⟩ : DirEntry) ∈
      [some (⟨"n1", some shortLineContent⟩ : DirEntry)]) ∧
    hasShortCtrLine shortLineContent ∧
    isErrE (parse_configs [some ⟨"n1", some shortLineContent⟩]) = true :=
  ⟨by decide, by decide,
   c8_bad_file_errors [some ⟨"n1", some shortLineContent⟩] "n1" shortLineContent
     (by decide) (by decide) (Or.inr (Or.inr (Or.inl (by decide))))⟩

/-- C9: after a successful load, every key of `name_mappings[n]` is
lowercased — it contains no ASCII uppercase letter, because container
names and aliases are case-folded by the loader before they become
keys. -/
theorem c9_keys_lowercase (entries : List (Option DirEntry)) (n x : String)
    (hok : isOkE (parse_configs entries) = true)
    (hkey : (alookup2 (loadedBackend entries).name_mappings n x).isSome = true) :
    containsUpper x = false := by
  obtain ⟨hload, hnm, _⟩ := parse_configs_components entries hok
  rw [hnm] at hkey
  rcases loadEntries_prov_nm entries initState (loadedState entries) hload n x hkey with
    h1 | ⟨d, _, _, _, c, bs, cs, _, hpc, e, he, hx⟩
  · simp [initState, alookup2, alookup] at h1
  · obtain ⟨parts, hpp⟩ := parse_config_ctrs_from c bs cs hpc e he
    exact parsedEntry_aliases_lower e parts hpp x hx

/-- C9 witness: concrete instance of `c9_keys_lowercase`. -/
theorem c9_keys_lowercase_witness :
    isOkE (parse_configs cexDir) = true ∧
    (alookup2 (loadedBackend cexDir).name_mappings "n1" "foo").isSome = true ∧
    containsUpper "foo" = false :=
  ⟨rfl, rfl, c9_keys_lowercase cexDir "n1" "foo" rfl rfl⟩

/-- C10: a container line with more than five space-separated fields is
parsed exactly like the same line truncated to its first four fields —
the extra fields are ignored without error, and in particular the
upstream DNS server list of the resulting entry is `none` (the fifth
field is honoured only on an exactly-five-field line). -/
theorem c10_extra_fields (parts : List String) (h : 5 < parts.length) :
    parseCtrParts parts = parseCtrParts (parts.take 4) ∧
    ∀ e, parseCtrParts parts = .ok e → e.dns_servers = none := by
  have hlen4 : (parts.take 4).length = 4 := by
    rw [List.length_take]
    omega
  have hg : ∀ i : Nat, i < 4 → (parts.take 4).getD i "" = parts.getD i "" := by
    intro i hi
    simp [List.getD_eq_getElem?_getD, List.getElem?_take, hi]
  constructor
  · unfold parseCtrParts
    rw [hg 0 (by omega), hg 1 (by omega), hg 2 (by omega), hg 3 (by omega), hlen4]
    rw [if_neg (by omega : ¬parts.length < 4)]
    rw [if_neg (by omega : ¬(4 : Nat) < 4)]
    rw [if_neg (by omega : ¬parts.length = 5)]
    rw [if_neg (by omega : ¬(4 : Nat) = 5)]
  · intro e he
    unfold parseCtrParts at he
    rw [if_neg (by omega : ¬parts.length < 4),
      if_neg (by omega : ¬parts.length = 5)] at he
    cases hv4 : parseOptList parseIpv4 (parts.getD 1 "") with
    | error e0 =>
      simp only [hv4] at he
      cases he
    | ok v4 =>
      simp only [hv4] at he
      cases hv6 : parseOptList parseIpv6 (parts.getD 2 "") with
      | error e0 =>
        simp only [hv6] at he
        cases he
      | ok v6 =>
        simp only [hv6] at he
        by_cases hemp :
            ((splitChar ',' (parts.getD 3 "")).map strToLower).isEmpty = true
        · rw [if_pos hemp] at he
          cases he
        · rw [if_neg hemp] at he
          cases he
          rfl

/-- C10 witness: concrete instance of `c10_extra_fields` on a six-field
line. -/
theorem c10_extra_fields_witness :
    parseCtrParts ["id", "10.0.0.2", "", "a", "8.8.8.8", "extra"] =
      parseCtrParts (["id", "10.0.0.2", "", "a", "8.8.8.8", "extra"].take 4) ∧
    ∀ e, parseCtrParts ["id", "10.0.0.2", "", "a", "8.8.8.8", "extra"] = .ok e →
      e.dns_servers = none :=
  c10_extra_fields ["id", "10.0.0.2", "", "a", "8.8.8.8", "extra"] (by decide)

/-- C1 (counterexample): the directory loads successfully and its only
container has full id `abcdefabcdefabcd` and the single alias `foo`,
yet neither the full id nor its 12-character short form
`abcdefabcdef` is a key of `name_mappings["n1"]` — only `foo` is.  The
loader does not add container ids to the name index. -/
theorem c1_counterexample :
    isOkE (parse_configs cexDir) = true ∧
    (ctrsOf fooContent).map CtrEntry.id = ["abcdefabcdefabcd"] ∧
    (alookup2 (loadedBackend cexDir).name_mappings "n1" "abcdefabcdefabcd").isSome
      = false ∧
    (alookup2 (loadedBackend cexDir).name_mappings "n1" "abcdefabcdef").isSome
      = false ∧
    (alookup2 (loadedBackend cexDir).name_mappings "n1" "foo").isSome = true :=
  ⟨rfl, rfl, rfl, rfl, rfl⟩

/-- C1 (amended): after a successful load, the keys of
`name_mappings[n]` are exactly the lowercased names that occur in the
name-list field of some container line of a descriptor for network `n`;
the loader adds one key per alias and nothing else — the container id
and its 12-character short form become keys only when the runtime lists
them in the name-list field. -/
theorem c1_keys_iff (entries : List (Option DirEntry)) (n x : String)
    (hok : isOkE (parse_configs entries) = true) :
    (alookup2 (loadedBackend entries).name_mappings n x).isSome = true ↔
      ∃ d : DirEntry, some d ∈ entries ∧ d.name = n ∧
        n ≠ AARDVARK_PID_FILE ∧
        ∃ c, d.content = some c ∧ ∃ e ∈ ctrsOf c, x ∈ e.aliases := by
  obtain ⟨hload, hnm, _⟩ := parse_configs_components entries hok
  rw [hnm]
  constructor
  · intro hkey
    rcases loadEntries_prov_nm entries initState (loadedState entries) hload n x
        hkey with
      h1 | ⟨d, hd, hdn, hdnp, c, bs, cs, hdc, hpc, e, he, hx⟩
    · simp [initState, alookup2, alookup] at h1
    · refine ⟨d, hd, hdn, hdn ▸ hdnp, c, hdc, e, ?_, hx⟩
      rw [ctrsOf_eq c bs cs hpc]
      exact he
  · rintro ⟨d, hd, hdn, hnp, c, hdc, e, he, hx⟩
    obtain ⟨c', bs, cs, hc', hpc⟩ :=
      loadEntries_processed entries initState (loadedState entries) hload d hd
        (hdn ▸ hnp)
    rw [hdc] at hc'
    injection hc' with hc'
    subst hc'
    rw [ctrsOf_eq c bs cs hpc] at he
    obtain ⟨l, hl, _⟩ :=
      loadEntries_establish_nm entries initState (loadedState entries) hload d hd
        (hdn ▸ hnp) c bs cs hdc hpc e he x hx
    rw [hdn] at hl
    rw [hl]
    rfl

/-- C1 witness: concrete instance of `c1_keys_iff`. -/
theorem c1_keys_iff_witness :
    isOkE (parse_configs cexDir) = true ∧
    ((alookup2 (loadedBackend cexDir).name_mappings "n1" "foo").isSome = true ↔
      ∃ d : DirEntry, some d ∈ cexDir ∧ d.name = "n1" ∧
        "n1" ≠ AARDVARK_PID_FILE ∧
        ∃ c, d.content = some c ∧ ∃ e ∈ ctrsOf c, "foo" ∈ e.aliases) :=
  ⟨rfl, c1_keys_iff cexDir "n1" "foo" rfl⟩

/-- C2 (counterexample): the reverse entry for `10.0.0.2` on network
`n1` is exactly `["foo"]` — the aliases of the container line; the
12-character truncation `abcdefabcdef` of the container's id
`abcdefabcdefabcd` is not appended by the loader. -/
theorem c2_counterexample :
    isOkE (parse_configs cexDir) = true ∧
    (ctrsOf fooContent).map CtrEntry.id = ["abcdefabcdefabcd"] ∧
    alookup2 (loadedBackend cexDir).reverse_mappings "n1"
      (IpAddr.v4 ⟨10, 0, 0, 2⟩) = some ["foo"] ∧
    ¬("abcdefabcdef" ∈ (["foo"] : List String)) :=
  ⟨rfl, rfl, rfl, by decide⟩

/-- C2 (amended): after a successful load, for every container line of
a descriptor for network `n` and every address `a` of that container,
`reverse_mappings[n][a]` contains the container's aliases contiguously
and in descriptor order (as an infix of the stored list); the loader
appends only the alias list, never a truncation of the container id. -/
theorem c2_reverse_has_aliases (entries : List (Option DirEntry)) (n c : String)
    (e : CtrEntry) (a : IpAddr)
    (hok : isOkE (parse_configs entries) = true)
    (hmem : some (⟨n, some c⟩ : DirEntry) ∈ entries)
    (hn : n ≠ AARDVARK_PID_FILE)
    (he : e ∈ ctrsOf c) (ha : a ∈ e.ips) :
    ∃ l, alookup2 (loadedBackend entries).reverse_mappings n a = some l ∧
      e.aliases <:+: l := by
  obtain ⟨hload, _, hrev⟩ := parse_configs_components entries hok
  obtain ⟨c', bs, cs, hc', hpc⟩ :=
    loadEntries_processed entries initState (loadedState entries) hload
      ⟨n, some c⟩ hmem hn
  injection hc' with hc'
  subst hc'
  rw [ctrsOf_eq c bs cs hpc] at he
  obtain ⟨l, hl, hal⟩ :=
    loadEntries_establish_rev entries initState (loadedState entries) hload
      ⟨n, some c⟩ hmem hn c bs cs rfl hpc e he a ha
  rw [hrev]
  exact ⟨l, hl, hal⟩

/-- C2 witness: concrete instance of `c2_reverse_has_aliases`. -/
theorem c2_reverse_has_aliases_witness :
    ∃ l, alookup2 (loadedBackend cexDir).reverse_mappings "n1"
        (IpAddr.v4 ⟨10, 0, 0, 2⟩) = some l ∧
      (["foo"] : List String) <:+: l :=
  c2_reverse_has_aliases cexDir "n1" fooContent fooEntry (IpAddr.v4 ⟨10, 0, 0, 2⟩)
    rfl (by decide) (by decide) (by decide) (by decide)

/-- C6 (counterexample): over `twoNetDir`, whose two containers share
the source IP `10.0.0.2`, two runs of the final `container_ips` fold
that visit the keys in the two orders `["c1", "c2"]` and `["c2", "c1"]`
— both permutations of the key set — both succeed but produce
different `ip_to_networks` indices (`["n1", "n2"]` versus
`["n2", "n1"]` for the shared address).  Since Rust's `HashMap`
iteration order is not a function of the map's contents, two loads of
identical directory contents need not produce structurally equal
backends. -/
theorem c6_counterexample :
    canonicalKeys twoNetDir = ["c1", "c2"] ∧
    List.Perm ["c2", "c1"] (canonicalKeys twoNetDir) ∧
    isOkE (parse_configs_order twoNetDir ["c1", "c2"]) = true ∧
    isOkE (parse_configs_order twoNetDir ["c2", "c1"]) = true ∧
    (orderedBackend twoNetDir ["c1", "c2"]).ip_mappings ≠
      (orderedBackend twoNetDir ["c2", "c1"]).ip_mappings :=
  ⟨rfl, by decide, rfl, rfl, by decide⟩

/-- C6 (amended): given the directory enumeration order, every index
except `ip_to_networks` is a function of the file contents alone: for
any two iteration orders of the final fold, both loads succeed and
produce identical `name_mappings`, `reverse_mappings` and
`upstream_servers`; only the `ip_to_networks` value lists may differ. -/
theorem c6_order_independent_except_ip (entries : List (Option DirEntry))
    (o1 o2 : List String)
    (hok : isOkE (loadEntries initState entries) = true) :
    isOkE (parse_configs_order entries o1) = true ∧
    isOkE (parse_configs_order entries o2) = true ∧
    (orderedBackend entries o1).name_mappings =
      (orderedBackend entries o2).name_mappings ∧
    (orderedBackend entries o1).reverse_mappings =
      (orderedBackend entries o2).reverse_mappings ∧
    (orderedBackend entries o1).ctr_dns_server =
      (orderedBackend entries o2).ctr_dns_server := by
  obtain ⟨h1, h2, h3, h4⟩ :=
    parse_configs_order_components entries (loadedState entries)
      (loadedState_eq entries hok) o1
  obtain ⟨h1', h2', h3', h4'⟩ :=
    parse_configs_order_components entries (loadedState entries)
      (loadedState_eq entries hok) o2
  exact ⟨h1, h1', h2.trans h2'.symm, h3.trans h3'.symm, h4.trans h4'.symm⟩

/-- C6 witness: concrete instance of `c6_order_independent_except_ip`. -/
theorem c6_order_independent_except_ip_witness :
    isOkE (parse_configs_order twoNetDir ["c1", "c2"]) = true ∧
    isOkE (parse_configs_order twoNetDir ["c2", "c1"]) = true ∧
    (orderedBackend twoNetDir ["c1", "c2"]).name_mappings =
      (orderedBackend twoNetDir ["c2", "c1"]).name_mappings ∧
    (orderedBackend twoNetDir ["c1", "c2"]).reverse_mappings =
      (orderedBackend twoNetDir ["c2", "c1"]).reverse_mappings ∧
    (orderedBackend twoNetDir ["c1", "c2"]).ctr_dns_server =
      (orderedBackend twoNetDir ["c2", "c1"]).ctr_dns_server :=
  c6_order_independent_except_ip twoNetDir ["c1", "c2"] ["c2", "c1"] rfl

/-- C7: after a successful load, for every container line of a
descriptor for network `n` with at least one v4 and at least one v6
address, and for every name `x` of that line, `name_mappings[n][x]`
contains all of the container's addresses contiguously, ordered as all
v4 addresses in descriptor order followed by all v6 addresses in
descriptor order (an infix of the stored list; nothing is sorted). -/
theorem c7_v4_then_v6 (entries : List (Option DirEntry)) (n c : String)
    (e : CtrEntry) (x : String)
    (hok : isOkE (parse_configs entries) = true)
    (hmem : some (⟨n, some c⟩ : DirEntry) ∈ entries)
    (hn : n ≠ AARDVARK_PID_FILE)
    (he : e ∈ ctrsOf c) (hx : x ∈ e.aliases)
    (h4 : e.v4.getD [] ≠ []) (h6 : e.v6.getD [] ≠ []) :
    ∃ l, alookup2 (loadedBackend entries).name_mappings n x = some l ∧
      ((e.v4.getD []).map IpAddr.v4 ++ (e.v6.getD []).map IpAddr.v6) <:+: l := by
  obtain ⟨hload, hnm, _⟩ := parse_configs_components entries hok
  obtain ⟨c', bs, cs, hc', hpc⟩ :=
    loadEntries_processed entries initState (loadedState entries) hload
      ⟨n, some c⟩ hmem hn
  injection hc' with hc'
  subst hc'
  rw [ctrsOf_eq c bs cs hpc] at he
  obtain ⟨l, hl, hip⟩ :=
    loadEntries_establish_nm entries initState (loadedState entries) hload
      ⟨n, some c⟩ hmem hn c bs cs rfl hpc e he x hx
  rw [hnm]
  exact ⟨l, hl, hip⟩

/-- C7 witness: concrete instance of `c7_v4_then_v6` on the dual-stack
fixture. -/
theorem c7_v4_then_v6_witness :
    ∃ l, alookup2 (loadedBackend multiDir).name_mappings "podman" "testmulti1" =
        some l ∧
      ((multiEntry.v4.getD []).map IpAddr.v4 ++
        (multiEntry.v6.getD []).map IpAddr.v6) <:+: l :=
  c7_v4_then_v6 multiDir "podman" multiContent multiEntry "testmulti1" rfl
    (by decide) (by decide) (by decide) (by decide) (by decide) (by decide)

end Aardvark
